import Mathlib

/-!
Verification of the calypsetup builder (`src/builder.py`).

This file shallowly embeds the pure content of the builder module:
pseudopotential (POTCAR) resolution and RWIGS parsing, the distance-of-ion
matrix, the PSTRESS formatter, the input.dat renderer, the in-place
SystemName/NumberOfAtoms scaler, and the directory orchestrator over an
explicit file-system state.  Python machine floats are modelled as exact
rationals, Python ints as integers, and text as lists of characters.
-/

namespace Calypsetup

/-! ## Python-style character classes and basic text utilities -/

/-- Characters treated as whitespace by Python's default `str.strip` /
`str.split` and by the `re` module's whitespace class on `str`. -/
def pyIsSpace (c : Char) : Bool :=
  c = ' ' || (9 ≤ c.toNat && c.toNat ≤ 13) || (28 ≤ c.toNat && c.toNat ≤ 30) ||
  c.toNat = 133 || c.toNat = 160 || c.toNat = 0x1680 ||
  (0x2000 ≤ c.toNat && c.toNat ≤ 0x200a) ||
  c.toNat = 0x2028 || c.toNat = 0x2029 || c.toNat = 0x202f ||
  c.toNat = 0x205f || c.toNat = 0x3000

/-- Characters on which Python's `str.splitlines` breaks a line. -/
def isLineBreak (c : Char) : Bool :=
  c = '\n' || c = '\r' || c.toNat = 11 || c.toNat = 12 ||
  (28 ≤ c.toNat && c.toNat ≤ 30) || c.toNat = 133 ||
  c.toNat = 0x2028 || c.toNat = 0x2029

/-- Python's `str.startswith` on character lists. -/
def strStartsWith : List Char → List Char → Bool
  | _, [] => true
  | [], _ :: _ => false
  | c :: cs, d :: ds => c = d && strStartsWith cs ds

/-- Python's `str.strip()` (no argument): drop whitespace from both ends. -/
def pyStrip (cs : List Char) : List Char :=
  ((cs.dropWhile pyIsSpace).reverse.dropWhile pyIsSpace).reverse

/-- Python's `str.split()` (no argument): split on whitespace runs,
dropping empty pieces. -/
def pySplit (cs : List Char) : List (List Char) :=
  (cs.splitOnP pyIsSpace).filter (fun t => !t.isEmpty)

/-- Everything after the first occurrence of a character
(Python's `s.split(ch, 1)[1]`, assuming the character occurs). -/
def afterFirst (ch : Char) (cs : List Char) : List Char :=
  (cs.dropWhile (fun c => c ≠ ch)).drop 1

/-! ## Rendering and parsing of Python integers -/

/-- Big-endian decimal digits of a positive natural number; the first
argument is recursion fuel (any value at least the number suffices). -/
def natDigitsAux : ℕ → ℕ → List Char → List Char
  | 0, _, acc => acc
  | _ + 1, 0, acc => acc
  | f + 1, n + 1, acc =>
      natDigitsAux f ((n + 1) / 10) (Nat.digitChar ((n + 1) % 10) :: acc)

/-- Python's `str` on a non-negative integer. -/
def pyStrNat (n : ℕ) : List Char := if n = 0 then ['0'] else natDigitsAux n n []

/-- Python's `str` on an integer. -/
def pyStr (i : ℤ) : List Char :=
  if i < 0 then '-' :: pyStrNat i.natAbs else pyStrNat i.toNat

/-- Numeric value of a decimal digit character. -/
def digitVal (c : Char) : ℕ := c.toNat - 48

/-- Value of a big-endian string of decimal digits. -/
def digitsVal (cs : List Char) : ℕ := cs.foldl (fun a c => a * 10 + digitVal c) 0

/-- Python's `int(s)` on a whitespace-free token (sign handling as in
CPython; numeric-literal underscores are not modelled). -/
def pyParseInt (cs : List Char) : Option ℤ :=
  match cs with
  | [] => none
  | c :: ds =>
      if c = '-' then
        if ds ≠ [] ∧ ds.all Char.isDigit then some (-(digitsVal ds : ℤ)) else none
      else if c = '+' then
        if ds ≠ [] ∧ ds.all Char.isDigit then some ((digitsVal ds : ℤ)) else none
      else if (c :: ds).all Char.isDigit then some ((digitsVal (c :: ds) : ℤ))
      else none

/-! ## Basic lemmas about integer rendering and parsing -/

theorem natDigitsAux_eq (f : ℕ) : ∀ n acc, n ≤ f →
    natDigitsAux f n acc = ((Nat.digits 10 n).reverse.map Nat.digitChar) ++ acc := by
  induction f with
  | zero =>
      intro n acc hn
      interval_cases n
      simp [natDigitsAux]
  | succ f ih =>
      intro n acc hn
      match n with
      | 0 => simp [natDigitsAux]
      | m + 1 =>
          have hdiv : (m + 1) / 10 ≤ f := by
            have : (m + 1) / 10 < m + 1 := Nat.div_lt_self (Nat.succ_pos m) (by norm_num)
            omega
          rw [natDigitsAux, ih _ _ hdiv,
            Nat.digits_def' (b := 10) (by norm_num) (Nat.succ_pos m)]
          simp [List.append_assoc]

theorem digitVal_digitChar {d : ℕ} (h : d < 10) : digitVal (Nat.digitChar d) = d := by
  interval_cases d <;> rfl

theorem isDigit_digitChar {d : ℕ} (h : d < 10) : (Nat.digitChar d).isDigit = true := by
  interval_cases d <;> rfl

theorem digitsVal_append_singleton (xs : List Char) (c : Char) :
    digitsVal (xs ++ [c]) = digitsVal xs * 10 + digitVal c := by
  simp [digitsVal, List.foldl_append]

theorem digitsVal_rev_digits (L : List ℕ) (h : ∀ d ∈ L, d < 10) :
    digitsVal (L.reverse.map Nat.digitChar) = Nat.ofDigits 10 L := by
  induction L with
  | nil => simp [digitsVal, Nat.ofDigits]
  | cons d L ih =>
      have hd : d < 10 := h d (List.mem_cons_self d L)
      have hL : ∀ x ∈ L, x < 10 := fun x hx => h x (List.mem_cons_of_mem d hx)
      rw [List.reverse_cons, List.map_append, List.map_cons, List.map_nil,
        digitsVal_append_singleton, ih hL, Nat.ofDigits_cons, digitVal_digitChar hd]
      ring

theorem pyStrNat_eq (n : ℕ) (hn : n ≠ 0) :
    pyStrNat n = (Nat.digits 10 n).reverse.map Nat.digitChar := by
  rw [pyStrNat, if_neg hn, natDigitsAux_eq n n [] le_rfl, List.append_nil]

theorem digitsVal_pyStrNat (n : ℕ) : digitsVal (pyStrNat n) = n := by
  by_cases hn : n = 0
  · subst hn; rfl
  · rw [pyStrNat_eq n hn, digitsVal_rev_digits _ (fun d hd => Nat.digits_lt_base (by norm_num) hd),
      Nat.ofDigits_digits]

theorem pyStrNat_all_digits (n : ℕ) : (pyStrNat n).all Char.isDigit = true := by
  by_cases hn : n = 0
  · subst hn; rfl
  · rw [pyStrNat_eq n hn]
    simp only [List.all_eq_true, List.mem_map, List.mem_reverse]
    rintro c ⟨d, hd, rfl⟩
    exact isDigit_digitChar (Nat.digits_lt_base (by norm_num) hd)

theorem pyStrNat_ne_nil (n : ℕ) : pyStrNat n ≠ [] := by
  by_cases hn : n = 0
  · subst hn; simp [pyStrNat]
  · rw [pyStrNat_eq n hn]
    simp [Nat.digits_ne_nil_iff_ne_zero, hn]

theorem pyParseInt_pyStr (i : ℤ) : pyParseInt (pyStr i) = some i := by
  by_cases hi : i < 0
  · rw [pyStr, if_pos hi]
    have hall := pyStrNat_all_digits i.natAbs
    have hne := pyStrNat_ne_nil i.natAbs
    have hval := digitsVal_pyStrNat i.natAbs
    simp only [pyParseInt]
    rw [if_pos trivial, if_pos ⟨hne, hall⟩, hval]
    congr 1
    omega
  · rw [pyStr, if_neg hi]
    obtain ⟨c, cs, hc⟩ := List.exists_cons_of_ne_nil (pyStrNat_ne_nil i.toNat)
    have hall := pyStrNat_all_digits i.toNat
    have hval := digitsVal_pyStrNat i.toNat
    rw [hc] at hall hval
    have hcd : c.isDigit = true := by
      simp only [List.all_cons, Bool.and_eq_true] at hall
      exact hall.1
    have hcm : c ≠ '-' := by
      intro h; rw [h] at hcd; exact absurd hcd (by decide)
    have hcp : c ≠ '+' := by
      intro h; rw [h] at hcd; exact absurd hcd (by decide)
    rw [hc]
    simp only [pyParseInt]
    rw [if_neg hcm, if_neg hcp, if_pos hall, hval]
    congr 1
    omega

theorem pyStr_injective : Function.Injective pyStr := by
  intro a b hab
  have ha := pyParseInt_pyStr a
  have hb := pyParseInt_pyStr b
  rw [hab, hb] at ha
  exact (Option.some_injective _ ha).symm

/-! ## Kernel-reducible rational arithmetic

Mathlib routes `+`, `-`, `*` on `ℚ` through `Rat.add/sub/mul`, which are
marked irreducible, so concrete theorem statements could not be settled by
kernel evaluation.  The operations below are extensionally equal (bridging
lemmas follow) but defined directly through `mkRat`. -/

/-- Addition on `ℚ` through `mkRat`. -/
def qAdd (a b : ℚ) : ℚ := mkRat (a.num * b.den + b.num * a.den) (a.den * b.den)

/-- Multiplication on `ℚ` through `mkRat`. -/
def qMul (a b : ℚ) : ℚ := mkRat (a.num * b.num) (a.den * b.den)

/-- Subtraction on `ℚ` through `mkRat`. -/
def qSub (a b : ℚ) : ℚ := qAdd a (-b)

/-- Minimum of two rationals. -/
def qMin (a b : ℚ) : ℚ := if a ≤ b then a else b

theorem mkRat_eq_cast_div (n : ℤ) (d : ℕ) : mkRat n d = (n : ℚ) / (d : ℚ) := by
  rw [Rat.mkRat_eq_divInt, Rat.divInt_eq_div]
  norm_num

theorem qAdd_eq (a b : ℚ) : qAdd a b = a + b := by
  have ha : (a.den : ℚ) ≠ 0 := Nat.cast_ne_zero.mpr a.den_nz
  have hb : (b.den : ℚ) ≠ 0 := Nat.cast_ne_zero.mpr b.den_nz
  rw [qAdd, mkRat_eq_cast_div]
  push_cast
  conv_rhs => rw [← Rat.num_div_den a, ← Rat.num_div_den b]
  field_simp

theorem qMul_eq (a b : ℚ) : qMul a b = a * b := by
  have ha : (a.den : ℚ) ≠ 0 := Nat.cast_ne_zero.mpr a.den_nz
  have hb : (b.den : ℚ) ≠ 0 := Nat.cast_ne_zero.mpr b.den_nz
  rw [qMul, mkRat_eq_cast_div]
  push_cast
  conv_rhs => rw [← Rat.num_div_den a, ← Rat.num_div_den b]
  field_simp

theorem qSub_eq (a b : ℚ) : qSub a b = a - b := by
  rw [qSub, qAdd_eq, sub_eq_add_neg]

theorem qMin_eq (a b : ℚ) : qMin a b = min a b := (min_def a b).symm

theorem mkRat_int (n : ℤ) : mkRat n 1 = (n : ℚ) := by
  rw [mkRat_eq_cast_div]
  norm_num

/-! ## Numeric formatting (Python `round`, `%.6g`, `%.6f`) -/

/-- Python's builtin `round` to an integer: round half to even. -/
def pyRound (q : ℚ) : ℤ :=
  let f := q.num / q.den
  let r := qSub q (mkRat f 1)
  if r < mkRat 1 2 then f
  else if mkRat 1 2 < r then f + 1
  else if f % 2 = 0 then f else f + 1

/-- Integer power of ten as a rational. -/
def qPow10 (k : ℤ) : ℚ :=
  if 0 ≤ k then mkRat (10 ^ k.toNat) 1 else mkRat 1 (10 ^ (-k).toNat)

/-- Number of decimal digits of a positive natural number; the first
argument is recursion fuel. -/
def digitCountAux : ℕ → ℕ → ℕ
  | 0, _ => 0
  | _ + 1, 0 => 0
  | f + 1, n + 1 => digitCountAux f ((n + 1) / 10) + 1

/-- Number of decimal digits (0 for 0). -/
def digitCount (n : ℕ) : ℕ := digitCountAux n n

/-- Decimal exponent of a positive rational: the unique `e` with
`10 ^ e ≤ q < 10 ^ (e + 1)` (junk on non-positive input). -/
def decExp (q : ℚ) : ℤ :=
  let a := q.num.natAbs
  let b := q.den
  let e0 : ℤ := (digitCount a : ℤ) - (digitCount b : ℤ)
  if qPow10 e0 ≤ q then e0 else e0 - 1

/-- The six decimal digits of a number below `10 ^ 6`, zero padded. -/
def sixDigits (m : ℕ) : List Char :=
  [Nat.digitChar (m / 100000 % 10), Nat.digitChar (m / 10000 % 10),
   Nat.digitChar (m / 1000 % 10), Nat.digitChar (m / 100 % 10),
   Nat.digitChar (m / 10 % 10), Nat.digitChar (m % 10)]

/-- Drop trailing zero characters. -/
def stripTrailingZeros (ds : List Char) : List Char :=
  (ds.reverse.dropWhile (fun c => c = '0')).reverse

/-- Exponent digits of C's `%g`: at least two, zero padded. -/
def expDigits (n : ℕ) : List Char :=
  if n < 10 then '0' :: pyStrNat n else pyStrNat n

/-- Mantissa and decimal exponent for `%.6g`: round to six significant
digits, renormalizing when rounding carries into a seventh digit. -/
def g6Mantissa (q : ℚ) : ℕ × ℤ :=
  let e1 := decExp q
  let m1 := pyRound (qMul q (qPow10 (5 - e1)))
  if m1 = 10 ^ 6 then (10 ^ 5, e1 + 1) else (m1.toNat, e1)

/-- Rendering step of `%.6g`: strip trailing zeros and use fixed-point
notation when the decimal exponent lies in `[-4, 5]`, scientific notation
otherwise. -/
def g6Render (M : ℕ) (e : ℤ) : List Char :=
  let ds0 := stripTrailingZeros (sixDigits M)
  let ds := if ds0 = [] then ['0'] else ds0
  if e < -4 ∨ 6 ≤ e then
    ds.take 1 ++ (if ds.length ≤ 1 then [] else '.' :: ds.drop 1) ++
      'e' :: (if e < 0 then '-' else '+') :: expDigits e.natAbs
  else if 0 ≤ e then
    let intLen := e.toNat + 1
    if ds.length ≤ intLen then ds ++ List.replicate (intLen - ds.length) '0'
    else ds.take intLen ++ '.' :: ds.drop intLen
  else
    '0' :: '.' :: (List.replicate ((-e).toNat - 1) '0' ++ ds)

/-- C/Python `%.6g` formatting of a positive rational. -/
def g6Pos (q : ℚ) : List Char := g6Render (g6Mantissa q).1 (g6Mantissa q).2

/-- C/Python `%.6g` formatting of a rational. -/
def g6 (q : ℚ) : List Char :=
  if q = 0 then ['0'] else if q < 0 then '-' :: g6Pos (-q) else g6Pos q

/-- Number of significant digits of a rendered number: decimal digits of
the mantissa, ignoring leading zeros. -/
def sigDigitCount (cs : List Char) : ℕ :=
  (((cs.takeWhile (fun c => c ≠ 'e')).filter Char.isDigit).dropWhile
    (fun c => c = '0')).length

/-- Python `%.6f` formatting of a non-negative scaled integer value. -/
def q6fNat (m : ℕ) : List Char :=
  pyStrNat (m / 10 ^ 6) ++ '.' :: sixDigits (m % 10 ^ 6)

/-- Python `f"{x:.6f}"` formatting of a rational. -/
def q6f (q : ℚ) : List Char :=
  if q < 0 then '-' :: q6fNat (pyRound (qMul (-q) (mkRat 1000000 1))).toNat
  else q6fNat (pyRound (qMul q (mkRat 1000000 1))).toNat

/-- Stand-in for Python's `str` on a float.  The claims under verification
never depend on the exact text produced here, only on the lines in which it
appears and on equal inputs rendering equally. -/
def floatStr (q : ℚ) : List Char := pyStr q.num ++ '/' :: pyStrNat q.den

/-- The exact rational value of the IEEE-754 double `math.pi`. -/
def piFloat : ℚ := mkRat 884279719003555 281474976710656

instance exceptDecEq {ε α : Type} [DecidableEq ε] [DecidableEq α] :
    DecidableEq (Except ε α) := fun a b =>
  match a, b with
  | .ok x, .ok y =>
      if h : x = y then isTrue (by rw [h])
      else isFalse (by intro hc; cases hc; exact h rfl)
  | .error x, .error y =>
      if h : x = y then isTrue (by rw [h])
      else isFalse (by intro hc; cases hc; exact h rfl)
  | .ok _, .error _ => isFalse (by intro hc; cases hc)
  | .error _, .ok _ => isFalse (by intro hc; cases hc)

/-- Embedding of `_format_pstress_kbar` (src/builder.py:18-26): convert a
pressure in GPa to kbar and format it, preferring bare-integer rendering
when the scaled value is within `1e-9` of an integer. -/
def format_pstress_kbar (pressure_gpa : ℚ) : Except (List Char) (List Char) :=
  let pstress_kbar := qMul pressure_gpa (mkRat 10 1)
  if pstress_kbar < 0 then .error ("Pressure must be non-negative.".data)
  else if |qSub pstress_kbar (mkRat (pyRound pstress_kbar) 1)| < mkRat 1 1000000000 then
    .ok (pyStr (pyRound pstress_kbar))
  else .ok (g6 pstress_kbar)

/-! ## The RWIGS regular expressions of `find_potcar`

`find_potcar` (src/builder.py:59-62) compiles two case-insensitive
patterns over the POTCAR text,

  pair:   RWIGS\s*=\s*([-+]?\d*\.?\d+)\s*;\s*RWIGS\s*=\s*([-+]?\d*\.?\d+)
  single: RWIGS\s*=\s*([-+]?\d*\.?\d+)

and uses `pair.search` / `single.findall`.  They are embedded below as
direct scanners.  For these patterns greedy maximal-munch matching is
extensionally equal to backtracking regex matching: a shortened number
token leaves a digit or dot immediately after it, which can never satisfy
the following `\s*`, `;`, or end of pattern. -/

/-- Maximal-munch match of `[-+]?\d*\.?\d+` at the start of the input,
returning the matched token and the remaining input. -/
def scanNumber (cs : List Char) : Option (List Char × List Char) :=
  let sign : List Char × List Char :=
    match cs with
    | c :: rest => if c = '+' ∨ c = '-' then ([c], rest) else ([], cs)
    | [] => ([], [])
  let cs1 := sign.2
  let ints := cs1.takeWhile Char.isDigit
  let cs2 := cs1.dropWhile Char.isDigit
  match cs2 with
  | '.' :: cs3 =>
      let frs := cs3.takeWhile Char.isDigit
      if frs ≠ [] then some (sign.1 ++ ints ++ '.' :: frs, cs3.dropWhile Char.isDigit)
      else if ints ≠ [] then some (sign.1 ++ ints, cs2)
      else none
  | _ => if ints ≠ [] then some (sign.1 ++ ints, cs2) else none

/-- Value of a matched number token (Python `float` on the match group,
exactly). -/
def numValue (tok : List Char) : ℚ :=
  let sgn : Bool × List Char :=
    match tok with
    | '-' :: t => (true, t)
    | '+' :: t => (false, t)
    | t => (false, t)
  let ints := sgn.2.takeWhile Char.isDigit
  let rest := sgn.2.dropWhile Char.isDigit
  let frac := match rest with
    | '.' :: f => f
    | _ => []
  let v : ℚ := mkRat (digitsVal ints * 10 ^ frac.length + digitsVal frac) (10 ^ frac.length)
  if sgn.1 then -v else v

/-- ASCII lower-casing, for the `re.IGNORECASE` flag. -/
def charLower (c : Char) : Char :=
  if 'A' ≤ c ∧ c ≤ 'Z' then Char.ofNat (c.toNat + 32) else c

/-- Strip a case-insensitive literal (given in lower case) from the start
of the input. -/
def stripCI : List Char → List Char → Option (List Char)
  | [], cs => some cs
  | _ :: _, [] => none
  | l :: ls, c :: cs => if charLower c = l then stripCI ls cs else none

/-- Match `RWIGS\s*=\s*NUM` at the start of the input; on success return
the captured number value and the input remaining after the match. -/
def matchSingleAt (cs : List Char) : Option (ℚ × List Char) :=
  match stripCI ['r', 'w', 'i', 'g', 's'] cs with
  | none => none
  | some cs1 =>
      match cs1.dropWhile pyIsSpace with
      | '=' :: cs2 =>
          match scanNumber (cs2.dropWhile pyIsSpace) with
          | some (tok, rest) => some (numValue tok, rest)
          | none => none
      | _ => none

/-- Match the full pair pattern at the start of the input, returning the
two captured number values. -/
def matchPairAt (cs : List Char) : Option (ℚ × ℚ) :=
  match matchSingleAt cs with
  | none => none
  | some (v1, r1) =>
      match r1.dropWhile pyIsSpace with
      | ';' :: r2 =>
          match matchSingleAt (r2.dropWhile pyIsSpace) with
          | some (v2, _) => some (v1, v2)
          | none => none
      | _ => none

/-- `pair_re.search`: leftmost match of the pair pattern. -/
def pairSearch : List Char → Option (ℚ × ℚ)
  | [] => none
  | c :: cs =>
      match matchPairAt (c :: cs) with
      | some p => some p
      | none => pairSearch cs

/-- Worker for `single_re.findall`: scan left to right, collecting
non-overlapping matches; the first argument is recursion fuel (any value
above the input length suffices, since every step consumes input). -/
def singleFindallAux : ℕ → List Char → List ℚ
  | 0, _ => []
  | _ + 1, [] => []
  | f + 1, c :: cs =>
      match matchSingleAt (c :: cs) with
      | some (v, rest) => v :: singleFindallAux f rest
      | none => singleFindallAux f cs

/-- `single_re.findall`: all captured values, left to right. -/
def singleFindall (cs : List Char) : List ℚ :=
  singleFindallAux (cs.length + 1) cs

/-- Rendering of `potcar_root / dirname / "POTCAR"` used in the data-error
message of `find_potcar`. -/
def potcarPath (root d : String) : List Char :=
  root.data ++ '/' :: d.data ++ "/POTCAR".data

/-- The RWIGS extraction of `find_potcar` (src/builder.py:85-92): prefer
the pair pattern (lesser of the first matched pair), else the minimum over
all single occurrences, else a data error naming the file. -/
def extractRwigs (text : List Char) (path : List Char) : Except (List Char) ℚ :=
  match pairSearch text with
  | some (a, b) => .ok (qMin a b)
  | none =>
      match singleFindall text with
      | [] => .error ("No RWIGS entry found in ".data ++ path)
      | v :: vs => .ok (vs.foldl qMin v)

/-! ## POTCAR resolution (`find_potcar`, src/builder.py:48-102) -/

/-- Environment for POTCAR resolution: the subdirectories of the
pseudopotential root, as (directory name, POTCAR file text) pairs. -/
abbrev PotEnv := List (String × List Char)

/-- The set `available_dirs` of src/builder.py:68. -/
def envDirs (env : PotEnv) : List String := env.map Prod.fst

/-- Text of the POTCAR file inside a root subdirectory. -/
def envText (env : PotEnv) (d : String) : List Char :=
  match env.find? (fun p => p.1 = d) with
  | some p => p.2
  | none => []

/-- Suffix priority order of src/builder.py:74. -/
def potcarSuffixes : List String := ["_pv", "_sv", "", "_s"]

/-- The generator expression of src/builder.py:71-78: the first suffix
variant whose directory exists under the root. -/
def selectPotcarDir (env : PotEnv) (element : String) : Option String :=
  (potcarSuffixes.map (fun suffix => element ++ suffix)).find?
    (fun d => decide (d ∈ envDirs env))

/-- Python-dict insertion: update the value in place if the key exists,
otherwise append the binding. -/
def assocSet {α β : Type} [DecidableEq α] (m : List (α × β)) (k : α) (v : β) :
    List (α × β) :=
  if m.any (fun p => p.1 = k) then m.map (fun p => if p.1 = k then (k, v) else p)
  else m ++ [(k, v)]

/-- The NotFound error message of src/builder.py:80. -/
def notFoundMsg (element root : String) : List Char :=
  "No suitable POTCAR found for ".data ++ element.data ++ " in ".data ++ root.data

/-- Result of `find_potcar`: the per-element RWIGS map, the global minimum
radius, and the concatenated POTCAR text. -/
structure PotcarResult where
  rwigs : List (String × ℚ)
  minLatomDis : Option ℚ
  potcar : List Char
  deriving DecidableEq

/-- The per-element loop of `find_potcar` (src/builder.py:70-96), threading
the accumulated POTCAR text, RWIGS map, and picked radii. -/
def findPotcarGo (env : PotEnv) (root : String) :
    List String → List Char → List (String × ℚ) → List ℚ →
    Except (List Char) (List Char × List (String × ℚ) × List ℚ)
  | [], content, rwigs, picked => .ok (content, rwigs, picked)
  | element :: rest, content, rwigs, picked =>
      match selectPotcarDir env element with
      | none => .error (notFoundMsg element root)
      | some d =>
          match extractRwigs (envText env d) (potcarPath root d) with
          | .error e => .error e
          | .ok chosen =>
              findPotcarGo env root rest (content ++ envText env d)
                (assocSet rwigs element chosen) (picked ++ [chosen])

/-- Embedding of `find_potcar` (src/builder.py:48-102).  The write of the
concatenated POTCAR file is performed by the orchestrator model from the
`potcar` field; the Python function performs it after the loop, so an
error in the loop means nothing was written. -/
def find_potcar (elements : List String) (env : PotEnv) (root : String) :
    Except (List Char) PotcarResult :=
  match findPotcarGo env root elements [] [] [] with
  | .error e => .error e
  | .ok (content, rwigs, picked) =>
      .ok { rwigs := rwigs
            minLatomDis :=
              match picked with
              | [] => none
              | v :: vs => some (vs.foldl qMin v)
            potcar := content }

/-- Embedding of `calculate_distance_of_ion` (src/builder.py:230-240).
The keys of a Python dict are distinct, so indexing the dict over its own
key list is the association-list value directly. -/
def calculate_distance_of_ion (rwigs_values : List (String × ℚ)) : List (List ℚ) :=
  rwigs_values.map (fun p =>
    rwigs_values.map (fun p' => qMul (qAdd p.2 p'.2) (mkRat 6 10)))

/-! ## The input.dat renderer (`create_input_dat`, src/builder.py:117-227) -/

/-- Python's `" ".join`. -/
def joinSpace (ts : List (List Char)) : List Char := List.intercalate [' '] ts

/-- The 2D-parameter values computed by `create_input_dat`
(src/builder.py:147-153). -/
structure TwoDParams where
  numLayers : ℤ
  area : ℚ
  deltaZ : ℚ
  layerLines : List (List Char)
  latomLine : List Char
  deriving DecidableEq

/-- The value fields substituted into the input.dat template by
`create_input_dat` (src/builder.py:136-145). -/
structure InputDat where
  systemName : List Char
  numSpecies : ℕ
  nameOfAtoms : List Char
  numberOfAtoms : List Char
  distanceLines : List (List Char)
  twoD : Option TwoDParams
  deriving DecidableEq

/-- Embedding of `create_input_dat` (src/builder.py:117-227), split into
the computation of the substituted values (here) and the fixed template
(`inputDatLines` below); the Python function writes the rendered text as
`input.dat`, raising before the write when 2D mode lacks a base area. -/
def create_input_dat (elements : List String) (atom_counts : List ℤ)
    (distance_of_ion_matrix : List (List ℚ)) (min_latom_dis : Option ℚ)
    (is_2d : Bool) (num_layers : ℤ) (relax_z : Bool)
    (base_area : Option ℚ) (layer_type_matrix : Option (List (List ℤ)))
    (formula_value : ℤ) : Except (List Char) InputDat :=
  let system_name := ((elements.zip atom_counts).map (fun p => p.1.data ++ pyStr p.2)).flatten
  let name_of_atoms := joinSpace (elements.map String.data)
  let number_of_atoms := joinSpace (atom_counts.map pyStr)
  let distance_lines := distance_of_ion_matrix.map (fun row => joinSpace (row.map q6f))
  let layer_lines : List (List Char) :=
    match layer_type_matrix with
    | some m => if m.isEmpty then [] else m.map (fun layer => joinSpace (layer.map pyStr))
    | none => []
  if is_2d then
    match base_area with
    | none => .error "base_area must be provided for 2D calculations".data
    | some ba =>
        .ok { systemName := system_name
              numSpecies := elements.length
              nameOfAtoms := name_of_atoms
              numberOfAtoms := number_of_atoms
              distanceLines := distance_lines
              twoD := some
                { numLayers := num_layers
                  area := qMul ba (mkRat formula_value 1)
                  deltaZ := if relax_z then mkRat 1 10 else 0
                  layerLines := layer_lines
                  latomLine :=
                    match min_latom_dis with
                    | some v => "LAtom_Dis = ".data ++ floatStr v
                    | none => [] } }
  else
    .ok { systemName := system_name
          numSpecies := elements.length
          nameOfAtoms := name_of_atoms
          numberOfAtoms := number_of_atoms
          distanceLines := distance_lines
          twoD := none }

/-- An embedded multi-line block contributes one empty line when its
joined string is empty, otherwise its rows. -/
def splice (lines : List (List Char)) : List (List Char) :=
  if lines.isEmpty then [[]] else lines

/-- Lines of the `two_d_parameters` block (src/builder.py:154-175),
without the surrounding empty lines produced by the template splice. -/
def twoDLines (t : TwoDParams) : List (List Char) :=
  ["######### The Parameters For 2D Structure Prediction #############".data,
   "# If True, a 2D structure prediction is performed.".data,
   "2D = True".data,
   "# The number of layers".data,
   "MultiLayer = ".data ++ pyStr t.numLayers,
   "# The Area of 2D system".data,
   "Area = ".data ++ floatStr t.area,
   "# The distortion value along the C axis".data,
   "DeltaZ = ".data ++ floatStr t.deltaZ,
   "# The gap between two layers".data,
   "LayerGap=5".data,
   "# The vacuum gap between the top surface of the slab and the top lattice, and between the bottom surface of the slab and the bottom lattice.".data,
   "VacuumGap=20".data,
   "# The number atoms for each layer".data,
   "@LayerType".data] ++
  splice t.layerLines ++
  ["@End".data,
   "# Minimal distance between atoms of each chemical species. Unit is in angstrom.".data,
   t.latomLine,
   "########################END 2D Parameters #########################".data]

/-- The input.dat template of src/builder.py:177-225 as a list of lines
(the written file is each line followed by a newline). -/
def inputDatLines (d : InputDat) : List (List Char) :=
  ["################################ The Basic Parameters of CALYPSO ################################".data,
   "# A string of one or several words contain a descriptCALYPSOive name of the system (max. 40 characters).".data,
   "SystemName = ".data ++ d.systemName,
   "# Number of different atomic species in the simulation.".data,
   "NumberOfSpecies = ".data ++ pyStrNat d.numSpecies,
   "# Element symbols of the different chemical species.".data,
   "NameOfAtoms = ".data ++ d.nameOfAtoms,
   "# Number of atoms for each chemical species in one formula unit.".data,
   "NumberOfAtoms = ".data ++ d.numberOfAtoms,
   "# The range of formula unit per cell in your simulation.".data,
   "NumberOfFormula = 1 1".data,
   "# The volume per formula unit. Unit is in angstrom^3.".data,
   "Volume= 0".data,
   "# Minimal distance between atoms of each chemical species. Unit is in angstrom.".data,
   "@DistanceOfIon".data] ++
  splice d.distanceLines ++
  ["@End".data,
   "# It determines which algorithm should be adopted in the simulation.".data,
   "Ialgo = 2".data,
   "# Ialgo = 1 for Global PSO".data,
   "# Ialgo = 2 for Local PSO (default value)".data,
   "# The proportion of the structures generated by PSO.".data,
   "PsoRatio = 0.6".data,
   "# The popu2ation size. Normally, it has a larger number for larger systems.".data,
   "PopSize = 40".data,
   "# It determines which local optimization method should be interfaced in the simulation.".data,
   "ICode = 1".data,
   "# ICode= 1 interfaced with VASP".data,
   "# ICode= 2 interfaced with SIESTA".data,
   "# ICode= 3 interfaced with GULP".data,
   "# The number of lbest for local PSO".data,
   "NumberOfLbest = 4".data,
   "# The Number of local optimization for each structure.".data,
   "NumberOfLocalOptim = 2".data,
   "# The command to perform local optimiztion calculation (e.g., VASP, SIESTA) on your computer.".data,
   "Command = sh submit.sh".data,
   "# The Max step for iteration".data,
   "MaxStep = 50".data,
   "# If True, a previous calculation will be continued.".data,
   "PickUp = F".data,
   "# At which step will the previous calculation be picked up.".data,
   "PickStep =".data,
   "MaxTime = 3600".data,
   "# If True, the local optimizations performed by parallel".data,
   "Parallel = T".data,
   "# The number node for parallel".data,
   "NumberOfParallel= 3".data] ++
  (match d.twoD with
   | none => [[]]
   | some t => [[]] ++ twoDLines t ++ [[]])

/-- Joined file content of a list of newline-terminated lines. -/
def contentOfLines (lines : List (List Char)) : List Char :=
  (lines.map (fun l => l ++ ['\n'])).flatten

/-! ## The in-place scaler (`adjust_input_dat`, src/builder.py:243-261) -/

/-- Worker for Python's `str.splitlines(True)`: split after every line
break, keeping the terminators; the first argument accumulates the
current line in reverse. -/
def splitKEAux : List Char → List Char → List (List Char)
  | cur, [] => if cur.isEmpty then [] else [cur.reverse]
  | cur, '\r' :: '\n' :: cs => (cur.reverse ++ ['\r', '\n']) :: splitKEAux [] cs
  | cur, c :: cs =>
      if c = '\r' then (cur.reverse ++ ['\r']) :: splitKEAux [] cs
      else if isLineBreak c then (cur.reverse ++ [c]) :: splitKEAux [] cs
      else splitKEAux (c :: cur) cs

/-- Python's `str.splitlines(True)` (keepends). -/
def splitlinesKE (cs : List Char) : List (List Char) := splitKEAux [] cs

/-- The per-line rewrite of `adjust_input_dat` (src/builder.py:250-259);
`none` models the `ValueError` raised by `int` on an unparseable atom
count. -/
def adjustLine (multiplier : ℤ) (line : List Char) : Option (List Char) :=
  if strStartsWith line "SystemName = ".data then
    let system_name := pyStrip (afterFirst '=' line)
    some ("SystemName = ".data ++ system_name ++ pyStr multiplier ++ ['\n'])
  else if strStartsWith line "NumberOfAtoms = ".data then
    match (pySplit (pyStrip (afterFirst '=' line))).mapM pyParseInt with
    | some ns =>
        some ("NumberOfAtoms = ".data ++
          joinSpace (ns.map (fun n => pyStr (n * multiplier))) ++ ['\n'])
    | none => none
  else some line

/-- Embedding of `adjust_input_dat` (src/builder.py:243-261) on the file
content it reads and writes back. -/
def adjust_input_dat (content : List Char) (multiplier : ℤ) : Option (List Char) :=
  match (splitlinesKE content).mapM (adjustLine multiplier) with
  | some ls => some ls.flatten
  | none => none

/-! ## File-system model -/

/-- A path relative to the destination root. -/
abbrev RelPath := List String

/-- The destination tree as a flat map from paths to file contents. -/
structure FS where
  files : List (RelPath × List Char)
  deriving DecidableEq

/-- Write (create or overwrite) a file. -/
def fsWrite (fs : FS) (p : RelPath) (content : List Char) : FS :=
  ⟨assocSet fs.files p content⟩

/-- Read a file. -/
def fsRead (fs : FS) (p : RelPath) : Option (List Char) :=
  match fs.files.find? (fun e => e.1 = p) with
  | some e => some e.2
  | none => none

/-- Delete a file (no effect when absent). -/
def fsUnlink (fs : FS) (p : RelPath) : FS :=
  ⟨fs.files.filter (fun e => ¬e.1 = p)⟩

/-! ## The orchestrator (`setup_calypso`, src/builder.py:264-432) -/

/-- Embedding of `SetupConfig` (src/builder.py:30-45); the destination and
POTCAR root become the file-system state and resolution environment. -/
structure SetupConfig where
  elements : List String
  atom_counts : List ℤ
  formula_multipliers : List ℤ
  pressure_gpa : ℚ
  calypso_executable : String
  vasp_executable : String
  is_2d : Bool
  num_layers : ℤ
  relax_z : Bool
  layer_type_matrix : Option (List (List ℤ))

/-- Lines of the first INCAR template (src/builder.py:276-293). -/
def incar1Lines (pstress : List Char) : List (List Char) :=
  ["SYSTEM = opt".data, "PREC = Accurate".data, "ENCUT = 300".data,
   "KSPACING = 0.5".data, "EDIFF = 1e-4".data, "EDIFFG = -0.1".data,
   "IBRION = 2".data, "ISIF = 3".data, "NSW = 60".data, "ISTART = 0".data,
   "ICHARG = 2".data, "ISMEAR = 1".data, "SIGMA = 0.05".data,
   "LREAL = Auto".data, "LCHARG = .F.".data, "LWAVE = .F.".data,
   "POTIM = 0.02".data, "PSTRESS = ".data ++ pstress]

/-- Lines of the second INCAR template (src/builder.py:294-311). -/
def incar2Lines (pstress : List Char) : List (List Char) :=
  ["SYSTEM = opt".data, "PREC = Accurate".data, "ENCUT = 400".data,
   "KSPACING = 0.25".data, "EDIFF = 5e-5".data, "EDIFFG = -0.03".data,
   "IBRION = 2".data, "ISIF = 3".data, "NSW = 60".data, "ISTART = 0".data,
   "ICHARG = 2".data, "ISMEAR = 1".data, "SIGMA = 0.05".data,
   "LREAL = Auto".data, "LCHARG = .F.".data, "LWAVE = .F.".data,
   "POTIM = 0.02".data, "PSTRESS = ".data ++ pstress]

/-- Content of the first INCAR file (no trailing newline in the source
template). -/
def incar1Content (pstress : List Char) : List Char :=
  List.intercalate ['\n'] (incar1Lines pstress)

/-- Content of the second INCAR file. -/
def incar2Content (pstress : List Char) : List Char :=
  List.intercalate ['\n'] (incar2Lines pstress)

/-- Content of `calypso_fullnode.sh` (src/builder.py:322-342). -/
def calypsoFullnodeContent (calypso_exec : String) : List Char :=
  List.intercalate ['\n']
    ["#!/bin/bash".data,
     "#SBATCH --job-name=caly48".data,
     "#SBATCH --exclude=node[1-8],gpu[1-2]".data,
     "#SBATCH --partition=chem352".data,
     "#SBATCH --nodes=1".data,
     "#SBATCH --ntasks-per-node=48          # whole node (48 cores)".data,
     "#SBATCH --cpus-per-task=1             # 1 CPU per MPI rank".data,
     "#SBATCH --exclusive                   # no other *jobs* on this node".data,
     "#SBATCH --output=%x_%j.out".data,
     "#SBATCH --error=%x_%j.err".data,
     "".data,
     "# ‑‑‑ safety limits -----------------------------------------------------------".data,
     "ulimit -s unlimited".data,
     "ulimit -c unlimited".data,
     "ulimit -d unlimited".data,
     "".data,
     "# (optional) record which host(s) we received".data,
     "scontrol show hostname \"$SLURM_NODELIST\" > machinefile".data,
     "".data,
     "# ‑‑‑ launch CALYPSO driver (single rank, I/O‑bound) --------------------------".data,
     calypso_exec.data ++ "   > caly.log 2>&1".data]

/-- Content of `calypso.sh` (src/builder.py:344-361). -/
def calypsoContent (calypso_exec : String) : List Char :=
  List.intercalate ['\n']
    ["#!/bin/bash".data,
     "#SBATCH --job-name=calypso".data,
     "#SBATCH --exclude=node[1-8],gpu[1-2]".data,
     "#SBATCH --partition=week-long".data,
     "#SBATCH -N 1".data,
     "#SBATCH -n 24".data,
     "#SBATCH --mail-type=end".data,
     "#SBATCH --output=%j.out".data,
     "#SBATCH --error=%j.err".data,
     "".data,
     "ulimit -s unlimited".data,
     "#ulimit -m unlimited".data,
     "ulimit -c unlimited".data,
     "ulimit -d unlimited".data,
     "".data,
     "#sleep 60".data,
     "##for CALYPSO6.0".data,
     calypso_exec.data]

/-- Content of `submit.sh` (src/builder.py:363-368). -/
def submitShContent (vasp_exec : String) : List Char :=
  List.intercalate ['\n']
    ["#!/bin/bash".data,
     "export OMP_NUM_THREADS=1".data,
     "export I_MPI_PMI_LIBRARY=/usr/lib64/libpmi2.so   # drop if you switch to PMIx".data,
     "".data,
     "srun --exact --mpi=pmi2 --ntasks=16 --cpus-per-task=1 --mem=80G --cpu-bind=cores \\".data,
     "        ".data ++ vasp_exec.data ++ " > vasp.out  2> vasp.err".data]

/-- Python's `max(rwigs_values, key=rwigs_values.get)`: the first key of
maximal value, in dict iteration order. -/
def argmaxFirst (m : List (String × ℚ)) : Option (String × ℚ) :=
  m.foldl
    (fun acc p =>
      match acc with
      | none => some p
      | some q' => if q'.2 < p.2 then some p else acc)
    none

/-- The 2D base-area computation of the orchestrator
(src/builder.py:376-381); errors model the exceptions Python would raise
on an empty radius map or mismatched count list. -/
def computeBaseArea (cfg : SetupConfig) (rwigs : List (String × ℚ)) :
    Except (List Char) (Option ℚ) :=
  if cfg.is_2d then
    match argmaxFirst rwigs with
    | none => .error "max() arg is an empty sequence".data
    | some p =>
        match cfg.elements.findIdx? (fun e => e = p.1) with
        | none => .error "element is not in list".data
        | some idx =>
            match cfg.atom_counts[idx]? with
            | none => .error "list index out of range".data
            | some count => .ok (some (qMul (qMul (mkRat count 1) piFloat) (qMul p.2 p.2)))
  else .ok none

/-- The six shared top-level files copied into every subdirectory and
deleted at the end (src/builder.py:383-390). -/
def filesToCopy : List String :=
  ["INCAR_1", "INCAR_2", "POTCAR", "calypso_fullnode.sh", "calypso.sh", "submit.sh"]

/-- The run-constant inputs of the per-multiplier loop. -/
structure RunCtx where
  cfg : SetupConfig
  pr : PotcarResult
  pstress : List Char
  matrix : List (List ℚ)
  baseArea : Option ℚ

/-- The scaled layer matrix of src/builder.py:400-404 (`None` when 2D is
off or the configured matrix is falsy). -/
def adjustedLayerMatrix (cfg : SetupConfig) (m : ℤ) : Option (List (List ℤ)) :=
  if cfg.is_2d then
    match cfg.layer_type_matrix with
    | some ltm =>
        if ltm.isEmpty then none
        else some (ltm.map (fun layer => layer.map (fun c => c * m)))
    | none => none
  else none

/-- The renderer call of the loop body (src/builder.py:406-418). -/
def renderFor (ctx : RunCtx) (m : ℤ) : Except (List Char) InputDat :=
  create_input_dat ctx.cfg.elements (ctx.cfg.atom_counts.map (fun c => c * m))
    ctx.matrix ctx.pr.minLatomDis ctx.cfg.is_2d ctx.cfg.num_layers
    ctx.cfg.relax_z ctx.baseArea (adjustedLayerMatrix ctx.cfg m) m

/-- The copy loop of src/builder.py:420-421: copy each shared root file
into the subdirectory, reading the current file-system state. -/
def copyAll (fs : FS) (dirName : String) : List String → Except (List Char) FS
  | [] => .ok fs
  | n :: rest =>
      match fsRead fs [n] with
      | none => .error ("copy source missing: ".data ++ n.data)
      | some c => copyAll (fsWrite fs [dirName, n] c) dirName rest

/-- The per-multiplier loop of src/builder.py:394-424; returns the final
state alongside the outcome so that error states remain observable. -/
def setupLoop (ctx : RunCtx) :
    List ℤ → List String → FS → Except (List Char) (List String) × FS
  | [], dirs, fs => (.ok dirs, fs)
  | m :: rest, dirs, fs =>
      match renderFor ctx m with
      | .error e => (.error e, fs)
      | .ok d =>
          let dirName := String.mk (pyStr m)
          let fs1 := fsWrite fs [dirName, "input.dat"] (contentOfLines (inputDatLines d))
          match copyAll fs1 dirName filesToCopy with
          | .error e => (.error e, fs1)
          | .ok fs2 => setupLoop ctx rest (dirs ++ [dirName]) fs2

/-- The cleanup loop of src/builder.py:426-430: delete each shared root
file, skipping (and merely logging) any whose deletion fails; the set of
failing paths is an environment oracle. -/
def unlinkStage (fs : FS) (unlinkFails : List RelPath) : FS :=
  filesToCopy.foldl
    (fun fs' n => if [n] ∈ unlinkFails then fs' else fsUnlink fs' [n]) fs

/-- The five orchestrator writes that follow the POTCAR write
(src/builder.py:313-372): the two INCAR files and the three job scripts. -/
def rootWrites (cfg : SetupConfig) (fs0 : FS) (pr : PotcarResult)
    (pstress : List Char) : FS :=
  fsWrite (fsWrite (fsWrite (fsWrite (fsWrite (fsWrite fs0
    ["POTCAR"] pr.potcar)
    ["INCAR_1"] (incar1Content pstress))
    ["INCAR_2"] (incar2Content pstress))
    ["calypso_fullnode.sh"] (calypsoFullnodeContent cfg.calypso_executable))
    ["calypso.sh"] (calypsoContent cfg.calypso_executable))
    ["submit.sh"] (submitShContent cfg.vasp_executable)

/-- Content of each shared top-level file as a function of the run
inputs. -/
def rootContent (cfg : SetupConfig) (pr : PotcarResult) (pstress : List Char)
    (n : String) : List Char :=
  if n = "INCAR_1" then incar1Content pstress
  else if n = "INCAR_2" then incar2Content pstress
  else if n = "POTCAR" then pr.potcar
  else if n = "calypso_fullnode.sh" then calypsoFullnodeContent cfg.calypso_executable
  else if n = "calypso.sh" then calypsoContent cfg.calypso_executable
  else submitShContent cfg.vasp_executable

/-- Embedding of `setup_calypso` (src/builder.py:264-432), returning the
outcome together with the final file-system state. -/
def setup_calypso (cfg : SetupConfig) (env : PotEnv) (root : String)
    (fs0 : FS) (unlinkFails : List RelPath) :
    Except (List Char) (List String) × FS :=
  match find_potcar cfg.elements env root with
  | .error e => (.error e, fs0)
  | .ok pr =>
      match format_pstress_kbar cfg.pressure_gpa with
      | .error e => (.error e, fsWrite fs0 ["POTCAR"] pr.potcar)
      | .ok pstress =>
          let fs6 := rootWrites cfg fs0 pr pstress
          let matrix := calculate_distance_of_ion pr.rwigs
          match computeBaseArea cfg pr.rwigs with
          | .error e => (.error e, fs6)
          | .ok baseArea =>
              match setupLoop ⟨cfg, pr, pstress, matrix, baseArea⟩
                  cfg.formula_multipliers [] fs6 with
              | (.error e, fs') => (.error e, fs')
              | (.ok dirs, fs') => (.ok dirs, unlinkStage fs' unlinkFails)

/-- The renderer together with its file write: `create_input_dat` writes
`input.dat` only after the whole template is built, so a validation error
leaves the state unchanged. -/
def create_input_dat_fs (fs : FS) (dir : RelPath) (elements : List String)
    (atom_counts : List ℤ) (distance_of_ion_matrix : List (List ℚ))
    (min_latom_dis : Option ℚ) (is_2d : Bool) (num_layers : ℤ) (relax_z : Bool)
    (base_area : Option ℚ) (layer_type_matrix : Option (List (List ℤ)))
    (formula_value : ℤ) : Except (List Char) Unit × FS :=
  match create_input_dat elements atom_counts distance_of_ion_matrix min_latom_dis
      is_2d num_layers relax_z base_area layer_type_matrix formula_value with
  | .error e => (.error e, fs)
  | .ok d => (.ok (), fsWrite fs (dir ++ ["input.dat"]) (contentOfLines (inputDatLines d)))

/-! ## Claim C4: shape and algebra of the distance-of-ion matrix -/

theorem distance_entry (rwigs : List (String × ℚ)) (i j : ℕ)
    (hi : i < rwigs.length) (hj : j < rwigs.length) :
    ((calculate_distance_of_ion rwigs).getD i []).getD j 0 =
      ((rwigs.getD i ("", 0)).2 + (rwigs.getD j ("", 0)).2) * (6 / 10 : ℚ) := by
  have h610 : (mkRat 6 10 : ℚ) = (6 / 10 : ℚ) := by
    rw [mkRat_eq_cast_div]; norm_num
  have h1 : (calculate_distance_of_ion rwigs).getD i [] =
      rwigs.map (fun p' => qMul (qAdd rwigs[i].2 p'.2) (mkRat 6 10)) := by
    rw [calculate_distance_of_ion, List.getD_eq_getElem _ _ (by simpa using hi),
      List.getElem_map]
  have h2 : (rwigs.map (fun p' => qMul (qAdd rwigs[i].2 p'.2) (mkRat 6 10))).getD j 0 =
      qMul (qAdd rwigs[i].2 rwigs[j].2) (mkRat 6 10) := by
    rw [List.getD_eq_getElem _ _ (by simpa using hj), List.getElem_map]
  have h3 : rwigs.getD i ("", 0) = rwigs[i] := List.getD_eq_getElem _ _ hi
  have h4 : rwigs.getD j ("", 0) = rwigs[j] := List.getD_eq_getElem _ _ hj
  rw [h1, h2, h3, h4, qMul_eq, qAdd_eq, h610]

/-- C4: for every radius map, the distance-of-ion matrix is square of
dimension the map size, entry (i, j) is (radius i + radius j) times 0.6,
the matrix is symmetric, and the diagonal entry at i is 1.2 times
radius i. -/
theorem C4_distance_matrix (rwigs : List (String × ℚ)) :
    (calculate_distance_of_ion rwigs).length = rwigs.length ∧
    (∀ row ∈ calculate_distance_of_ion rwigs, row.length = rwigs.length) ∧
    (∀ i j, i < rwigs.length → j < rwigs.length →
      ((calculate_distance_of_ion rwigs).getD i []).getD j 0 =
        ((rwigs.getD i ("", 0)).2 + (rwigs.getD j ("", 0)).2) * (6 / 10 : ℚ)) ∧
    (∀ i j, i < rwigs.length → j < rwigs.length →
      ((calculate_distance_of_ion rwigs).getD i []).getD j 0 =
        ((calculate_distance_of_ion rwigs).getD j []).getD i 0) ∧
    (∀ i, i < rwigs.length →
      ((calculate_distance_of_ion rwigs).getD i []).getD i 0 =
        (12 / 10 : ℚ) * (rwigs.getD i ("", 0)).2) := by
  refine ⟨?_, ?_, ?_, ?_, ?_⟩
  · simp [calculate_distance_of_ion]
  · intro row hrow
    rw [calculate_distance_of_ion] at hrow
    obtain ⟨p, hp, rfl⟩ := List.mem_map.mp hrow
    simp
  · exact fun i j hi hj => distance_entry rwigs i j hi hj
  · intro i j hi hj
    rw [distance_entry rwigs i j hi hj, distance_entry rwigs j i hj hi]
    ring
  · intro i hi
    rw [distance_entry rwigs i i hi hi]
    ring

/-- C4 witness: the matrix of radii Fe=1, O=2 has the entries of the
spec's example. -/
theorem C4_distance_matrix_witness :
    ((calculate_distance_of_ion [("Fe", 1), ("O", 2)]).getD 0 []).getD 1 0 =
      ((1 : ℚ) + 2) * (6 / 10 : ℚ) ∧
    ((calculate_distance_of_ion [("Fe", 1), ("O", 2)]).getD 0 []).getD 1 0 =
      ((calculate_distance_of_ion [("Fe", 1), ("O", 2)]).getD 1 []).getD 0 0 ∧
    ((calculate_distance_of_ion [("Fe", 1), ("O", 2)]).getD 1 []).getD 1 0 =
      (12 / 10 : ℚ) * 2 := by
  refine ⟨?_, ?_, ?_⟩
  · exact (C4_distance_matrix [("Fe", 1), ("O", 2)]).2.2.1 0 1 (by norm_num) (by norm_num)
  · exact (C4_distance_matrix [("Fe", 1), ("O", 2)]).2.2.2.1 0 1 (by norm_num) (by norm_num)
  · exact (C4_distance_matrix [("Fe", 1), ("O", 2)]).2.2.2.2 1 (by norm_num)

/-! ## Claim C3: radius extraction from a located POTCAR text -/

theorem foldl_qMin_spec (vs : List ℚ) : ∀ v : ℚ,
    vs.foldl qMin v ∈ v :: vs ∧ ∀ x ∈ v :: vs, vs.foldl qMin v ≤ x := by
  induction vs with
  | nil =>
      intro v
      refine ⟨by simp, ?_⟩
      intro x hx
      rw [List.mem_singleton] at hx
      simp [hx]
  | cons w ws ih =>
      intro v
      have hstep : (w :: ws).foldl qMin v = ws.foldl qMin (qMin v w) := rfl
      obtain ⟨hmem, hle⟩ := ih (qMin v w)
      constructor
      · rw [hstep]
        simp only [List.mem_cons]
        rcases List.mem_cons.mp hmem with h | h
        · rw [qMin_eq] at h
          rcases min_choice v w with hc | hc
          · exact Or.inl (h.trans hc)
          · exact Or.inr (Or.inl (h.trans hc))
        · exact Or.inr (Or.inr h)
      · intro x hx
        rw [hstep]
        have hminv : ws.foldl qMin (qMin v w) ≤ qMin v w :=
          hle _ (List.mem_cons_self _ _)
        rcases List.mem_cons.mp hx with h | h
        · subst h
          exact le_trans hminv (by rw [qMin_eq]; exact min_le_left _ _)
        rcases List.mem_cons.mp h with h' | h'
        · subst h'
          exact le_trans hminv (by rw [qMin_eq]; exact min_le_right _ _)
        · exact hle _ (List.mem_cons_of_mem _ h')

/-- C3: the resolved radius is the lesser of the first matched pair when
the paired pattern matches, otherwise the minimum over all single RWIGS
occurrences, and a data error when there is no occurrence at all; on the
text "RWIGS = 1.20; RWIGS = 1.10" the pair matches with first number 1.20
and the resolution is 1.10, not the first occurrence. -/
theorem C3_rwigs_resolution (text path : List Char) :
    (∀ a b, pairSearch text = some (a, b) →
      extractRwigs text path = .ok (min a b)) ∧
    (pairSearch text = none → singleFindall text = [] →
      extractRwigs text path = .error ("No RWIGS entry found in ".data ++ path)) ∧
    (∀ v vs, pairSearch text = none → singleFindall text = v :: vs →
      ∃ r, extractRwigs text path = .ok r ∧ r ∈ v :: vs ∧ ∀ x ∈ v :: vs, r ≤ x) ∧
    (pairSearch "RWIGS = 1.20; RWIGS = 1.10".data =
      some (mkRat 12 10, mkRat 11 10) ∧
     extractRwigs "RWIGS = 1.20; RWIGS = 1.10".data [] = .ok (mkRat 11 10) ∧
     mkRat 11 10 ≠ mkRat 12 10) := by
  refine ⟨?_, ?_, ?_, ?_, ?_, ?_⟩
  · intro a b h
    rw [extractRwigs, h]
    show Except.ok (qMin a b) = Except.ok (min a b)
    rw [qMin_eq]
  · intro h h'
    rw [extractRwigs, h, h']
  · intro v vs h h'
    rw [extractRwigs, h, h']
    exact ⟨vs.foldl qMin v, rfl, (foldl_qMin_spec vs v).1, (foldl_qMin_spec vs v).2⟩
  · decide
  · decide
  · decide

/-- C3 witness: concrete texts exercising the pair branch, the no-match
error branch, and the minimum-over-singles branch. -/
theorem C3_rwigs_resolution_witness :
    extractRwigs "RWIGS = 1.20; RWIGS = 1.10".data "p".data =
      .ok (min (mkRat 12 10) (mkRat 11 10)) ∧
    extractRwigs "no radius here".data "p".data =
      .error ("No RWIGS entry found in ".data ++ "p".data) ∧
    (∃ r, extractRwigs "RWIGS = 1.5 RWIGS = 0.5".data "p".data = .ok r ∧
      r ∈ mkRat 3 2 :: [mkRat 1 2] ∧ ∀ x ∈ mkRat 3 2 :: [mkRat 1 2], r ≤ x) :=
  ⟨(C3_rwigs_resolution "RWIGS = 1.20; RWIGS = 1.10".data "p".data).1
      (mkRat 12 10) (mkRat 11 10) (by decide),
   (C3_rwigs_resolution "no radius here".data "p".data).2.1 (by decide) (by decide),
   (C3_rwigs_resolution "RWIGS = 1.5 RWIGS = 0.5".data "p".data).2.2.1
      (mkRat 3 2) [mkRat 1 2] (by decide) (by decide)⟩

/-! ## Claim C1 stack: bounds for the decimal-exponent computation -/

theorem digitCountAux_eq (f : ℕ) : ∀ n, n ≤ f →
    digitCountAux f n = (Nat.digits 10 n).length := by
  induction f with
  | zero =>
      intro n hn
      have h0 : n = 0 := Nat.le_zero.mp hn
      subst h0
      simp [digitCountAux]
  | succ f ih =>
      intro n hn
      match n with
      | 0 => simp [digitCountAux]
      | m + 1 =>
          have hdiv : (m + 1) / 10 ≤ f := by
            have : (m + 1) / 10 < m + 1 := Nat.div_lt_self (Nat.succ_pos m) (by norm_num)
            omega
          rw [digitCountAux, ih _ hdiv,
            Nat.digits_def' (b := 10) (by norm_num) (Nat.succ_pos m)]
          simp

theorem digitCount_eq (n : ℕ) : digitCount n = (Nat.digits 10 n).length :=
  digitCountAux_eq n n le_rfl

theorem digitCount_pos (n : ℕ) (hn : n ≠ 0) : 1 ≤ digitCount n := by
  rw [digitCount_eq]
  have : Nat.digits 10 n ≠ [] := Nat.digits_ne_nil_iff_ne_zero.mpr hn
  exact List.length_pos.mpr this

theorem digitCount_bounds (n : ℕ) (hn : n ≠ 0) :
    10 ^ (digitCount n - 1) ≤ n ∧ n < 10 ^ digitCount n := by
  have hlen : digitCount n = Nat.log 10 n + 1 := by
    rw [digitCount_eq, Nat.digits_len 10 n (by norm_num) hn]
  constructor
  · rw [hlen]
    simpa using Nat.pow_log_le_self 10 hn
  · rw [hlen]
    exact Nat.lt_pow_succ_log_self (by norm_num) n

theorem qPow10_eq_zpow (k : ℤ) : qPow10 k = (10 : ℚ) ^ k := by
  rw [qPow10]
  by_cases hk : 0 ≤ k
  · rw [if_pos hk, mkRat_eq_cast_div]
    push_cast
    rw [div_one, ← zpow_natCast, Int.toNat_of_nonneg hk]
  · rw [if_neg hk, mkRat_eq_cast_div]
    push_cast
    rw [one_div, ← zpow_natCast, Int.toNat_of_nonneg (by omega : (0 : ℤ) ≤ -k),
      ← zpow_neg, neg_neg]

theorem qPow10_pos (k : ℤ) : 0 < qPow10 k := by
  rw [qPow10_eq_zpow]
  positivity

theorem qPow10_add (a b : ℤ) : qPow10 (a + b) = qPow10 a * qPow10 b := by
  rw [qPow10_eq_zpow, qPow10_eq_zpow, qPow10_eq_zpow,
    zpow_add₀ (by norm_num : (10 : ℚ) ≠ 0)]

theorem decExp_bounds (q : ℚ) (hq : 0 < q) :
    qPow10 (decExp q) ≤ q ∧ q < qPow10 (decExp q + 1) := by
  have hnum : 0 < q.num := Rat.num_pos.mpr hq
  have ha1 : q.num.natAbs ≠ 0 := by omega
  have hb1 : 1 ≤ q.den := q.pos
  have hbne : q.den ≠ 0 := by omega
  have hqab : q = (q.num.natAbs : ℚ) / (q.den : ℚ) := by
    have h1 : ((q.num.natAbs : ℕ) : ℚ) = (q.num : ℚ) := by
      rw [Int.cast_natAbs, abs_of_nonneg]
      exact_mod_cast hnum.le
    rw [h1, Rat.num_div_den]
  have hda := digitCount_bounds q.num.natAbs ha1
  have hdb := digitCount_bounds q.den hbne
  have hda1 : 1 ≤ digitCount q.num.natAbs := digitCount_pos _ ha1
  have hdb1 : 1 ≤ digitCount q.den := digitCount_pos _ hbne
  set da := digitCount q.num.natAbs with hdaeq
  set db := digitCount q.den with hdbeq
  have hupper : q < qPow10 ((da : ℤ) - (db : ℤ) + 1) := by
    have h3 : q < ((10 : ℚ) ^ da) / ((10 : ℚ) ^ (db - 1)) := by
      rw [hqab]
      gcongr
      · exact_mod_cast hda.2
      · exact_mod_cast hdb.1
    have h4 : ((10 : ℚ) ^ da) / ((10 : ℚ) ^ (db - 1)) =
        qPow10 ((da : ℤ) - (db : ℤ) + 1) := by
      rw [qPow10_eq_zpow, ← zpow_natCast, ← zpow_natCast,
        ← zpow_sub₀ (by norm_num : (10 : ℚ) ≠ 0)]
      congr 1
      omega
    rw [← h4]
    exact h3
  have hlower : qPow10 ((da : ℤ) - (db : ℤ) - 1) ≤ q := by
    have h3 : ((10 : ℚ) ^ (da - 1)) / ((10 : ℚ) ^ db) ≤ q := by
      rw [hqab]
      gcongr
      · exact_mod_cast hda.1
      · exact_mod_cast hdb.2.le
    have h4 : ((10 : ℚ) ^ (da - 1)) / ((10 : ℚ) ^ db) =
        qPow10 ((da : ℤ) - (db : ℤ) - 1) := by
      rw [qPow10_eq_zpow, ← zpow_natCast, ← zpow_natCast,
        ← zpow_sub₀ (by norm_num : (10 : ℚ) ≠ 0)]
      congr 1
      omega
    rw [← h4]
    exact h3
  rw [decExp]
  by_cases hcase : qPow10 ((da : ℤ) - (db : ℤ)) ≤ q
  · rw [if_pos (by rw [← hdaeq, ← hdbeq]; exact hcase)]
    exact ⟨hcase, hupper⟩
  · rw [if_neg (by rw [← hdaeq, ← hdbeq]; exact hcase)]
    constructor
    · exact hlower
    · rw [show (da : ℤ) - (db : ℤ) - 1 + 1 = (da : ℤ) - (db : ℤ) by ring]
      exact lt_of_not_le hcase

/-! ## Claim C1 stack: bounds for Python rounding -/

theorem mkRat_half : (mkRat 1 2 : ℚ) = 1 / 2 := by
  rw [mkRat_eq_cast_div]; norm_num

theorem rat_div_den_eq_floor (q : ℚ) : q.num / (q.den : ℤ) = ⌊q⌋ := Rat.floor_def.symm

theorem pyRound_eq_floor_or (q : ℚ) : pyRound q = ⌊q⌋ ∨ pyRound q = ⌊q⌋ + 1 := by
  simp only [pyRound, rat_div_den_eq_floor]
  split_ifs <;> simp

theorem le_pyRound_of_le (A : ℤ) (q : ℚ) (h : (A : ℚ) ≤ q) : A ≤ pyRound q := by
  have hfl : A ≤ ⌊q⌋ := Int.le_floor.mpr h
  rcases pyRound_eq_floor_or q with he | he <;> omega

theorem pyRound_le_of_lt (q : ℚ) (B : ℤ) (h : q < (B : ℚ)) : pyRound q ≤ B := by
  have hfl : ⌊q⌋ < B := Int.floor_lt.mpr h
  rcases pyRound_eq_floor_or q with he | he <;> omega

theorem pyRound_dist (q : ℚ) : |q - (pyRound q : ℚ)| ≤ 1 / 2 := by
  have h1 : (⌊q⌋ : ℚ) ≤ q := Int.floor_le q
  have h2 : q < (⌊q⌋ : ℚ) + 1 := Int.lt_floor_add_one q
  simp only [pyRound, rat_div_den_eq_floor, qSub_eq, mkRat_int, mkRat_half]
  split_ifs with hc1 hc2 hc3 <;> push_cast <;> rw [abs_le] <;> constructor <;> linarith

/-! ## Claim C1 stack: the `%.6g` mantissa has six digits -/

theorem g6Mantissa_bounds (q : ℚ) (hq : 0 < q) :
    10 ^ 5 ≤ (g6Mantissa q).1 ∧ (g6Mantissa q).1 < 10 ^ 6 := by
  obtain ⟨hl, hu⟩ := decExp_bounds q hq
  have hp : 0 < qPow10 (5 - decExp q) := qPow10_pos _
  have hxl : qPow10 5 ≤ qMul q (qPow10 (5 - decExp q)) := by
    rw [qMul_eq]
    calc qPow10 5 = qPow10 (decExp q) * qPow10 (5 - decExp q) := by
          rw [← qPow10_add]; congr 1; ring
    _ ≤ q * qPow10 (5 - decExp q) := mul_le_mul_of_nonneg_right hl hp.le
  have hxu : qMul q (qPow10 (5 - decExp q)) < qPow10 6 := by
    rw [qMul_eq]
    calc q * qPow10 (5 - decExp q)
        < qPow10 (decExp q + 1) * qPow10 (5 - decExp q) :=
          mul_lt_mul_of_pos_right hu hp
    _ = qPow10 6 := by rw [← qPow10_add]; congr 1; ring
  have hml : (10 : ℤ) ^ 5 ≤ pyRound (qMul q (qPow10 (5 - decExp q))) := by
    apply le_pyRound_of_le
    calc ((10 ^ 5 : ℤ) : ℚ) = qPow10 5 := by
          rw [qPow10_eq_zpow]; norm_num
    _ ≤ _ := hxl
  have hmu : pyRound (qMul q (qPow10 (5 - decExp q))) ≤ (10 : ℤ) ^ 6 := by
    apply pyRound_le_of_lt
    calc qMul q (qPow10 (5 - decExp q)) < qPow10 6 := hxu
    _ = ((10 ^ 6 : ℤ) : ℚ) := by rw [qPow10_eq_zpow]; norm_num
  rw [g6Mantissa]
  by_cases hcase : pyRound (qMul q (qPow10 (5 - decExp q))) = 10 ^ 6
  · rw [if_pos hcase]
    norm_num
  · rw [if_neg hcase]
    constructor <;> simp <;> omega

/-! ## Claim C1 stack: character-class helpers -/

theorem sixDigits_length (m : ℕ) : (sixDigits m).length = 6 := rfl

theorem sixDigits_all_digit (m : ℕ) : ∀ c ∈ sixDigits m, c.isDigit = true := by
  intro c hc
  rw [sixDigits] at hc
  simp only [List.mem_cons, List.mem_singleton, List.not_mem_nil, or_false] at hc
  rcases hc with h | h | h | h | h | h <;> subst h <;>
    exact isDigit_digitChar (Nat.mod_lt _ (by norm_num))

theorem digitChar_ne_zero_char {d : ℕ} (h1 : 1 ≤ d) (h9 : d ≤ 9) :
    Nat.digitChar d ≠ '0' := by
  interval_cases d <;> decide

theorem sixDigits_head (m : ℕ) (hml : 10 ^ 5 ≤ m) (hmu : m < 10 ^ 6) :
    ∃ t, sixDigits m = Nat.digitChar (m / 100000) :: t ∧
      Nat.digitChar (m / 100000) ≠ '0' := by
  have h1 : 1 ≤ m / 100000 := by omega
  have h9 : m / 100000 ≤ 9 := by omega
  refine ⟨[Nat.digitChar (m / 10000 % 10), Nat.digitChar (m / 1000 % 10),
    Nat.digitChar (m / 100 % 10), Nat.digitChar (m / 10 % 10), Nat.digitChar (m % 10)],
    ?_, digitChar_ne_zero_char h1 h9⟩
  rw [sixDigits, Nat.mod_eq_of_lt (by omega : m / 100000 < 10)]

theorem stripTrailingZeros_spec (l : List Char) :
    ∃ k, l = stripTrailingZeros l ++ List.replicate k '0' := by
  have hall : ∀ c ∈ l.reverse.takeWhile (fun c => decide (c = '0')), c = '0' := by
    intro c hc
    simpa using List.mem_takeWhile_imp hc
  obtain ⟨k, hk⟩ : ∃ k,
      l.reverse.takeWhile (fun c => decide (c = '0')) = List.replicate k '0' :=
    ⟨_, List.eq_replicate_iff.mpr ⟨rfl, hall⟩⟩
  refine ⟨k, ?_⟩
  conv_lhs =>
    rw [← List.reverse_reverse l,
      ← List.takeWhile_append_dropWhile (p := fun c : Char => decide (c = '0'))
        (l := l.reverse)]
  rw [List.reverse_append, hk, List.reverse_replicate]
  rfl

theorem stripTrailingZeros_length (l : List Char) :
    (stripTrailingZeros l).length ≤ l.length := by
  obtain ⟨k, hk⟩ := stripTrailingZeros_spec l
  have h : l.length = (stripTrailingZeros l).length + k := by
    conv_lhs => rw [hk]
    simp
  omega

theorem stripTrailingZeros_subset (l : List Char) :
    ∀ c ∈ stripTrailingZeros l, c ∈ l := by
  intro c hc
  obtain ⟨k, hk⟩ := stripTrailingZeros_spec l
  rw [hk]
  exact List.mem_append_left _ hc

theorem g6_ds_spec (M : ℕ) (hml : 10 ^ 5 ≤ M) (hmu : M < 10 ^ 6) :
    stripTrailingZeros (sixDigits M) ≠ [] ∧
    (stripTrailingZeros (sixDigits M)).length ≤ 6 ∧
    (∀ c ∈ stripTrailingZeros (sixDigits M), c.isDigit = true) ∧
    ∃ h t, stripTrailingZeros (sixDigits M) = h :: t ∧ h ≠ '0' := by
  obtain ⟨rest, hsix, hd0⟩ := sixDigits_head M hml hmu
  obtain ⟨k, hk⟩ := stripTrailingZeros_spec (sixDigits M)
  have hne : stripTrailingZeros (sixDigits M) ≠ [] := by
    intro hnil
    rw [hnil, List.nil_append] at hk
    rw [hsix] at hk
    have hd : Nat.digitChar (M / 100000) ∈ List.replicate k '0' := by
      rw [← hk]
      exact List.mem_cons_self _ _
    exact hd0 (List.eq_of_mem_replicate hd)
  obtain ⟨h, t, hht⟩ := List.exists_cons_of_ne_nil hne
  have hhd : h = Nat.digitChar (M / 100000) := by
    rw [hht] at hk
    rw [hsix] at hk
    have hhead := congrArg List.head? hk
    simp only [List.cons_append, List.head?_cons, Option.some.injEq] at hhead
    exact hhead.symm
  refine ⟨hne, ?_, ?_, h, t, hht, by rw [hhd]; exact hd0⟩
  · calc (stripTrailingZeros (sixDigits M)).length ≤ (sixDigits M).length :=
        stripTrailingZeros_length _
    _ = 6 := sixDigits_length M
  · exact fun c hc => sixDigits_all_digit M c (stripTrailingZeros_subset _ c hc)

theorem takeWhile_eq_self_of_all {p : Char → Bool} {l : List Char}
    (h : ∀ c ∈ l, p c = true) : l.takeWhile p = l := by
  induction l with
  | nil => rfl
  | cons a l ih =>
      rw [List.takeWhile_cons, if_pos (h a (List.mem_cons_self a l)),
        ih (fun c hc => h c (List.mem_cons_of_mem a hc))]

theorem takeWhile_append_stop {p : Char → Bool} {A B : List Char} {c : Char}
    (hA : ∀ x ∈ A, p x = true) (hc : p c = false) :
    (A ++ c :: B).takeWhile p = A := by
  induction A with
  | nil => simp [List.takeWhile_cons, hc]
  | cons a A ih =>
      rw [List.cons_append, List.takeWhile_cons, if_pos (hA a (List.mem_cons_self a A)),
        ih (fun x hx => hA x (List.mem_cons_of_mem a hx))]

theorem dropWhile_replicate_append {p : Char → Bool} (k : ℕ) (l : List Char)
    (hp : p '0' = true) :
    (List.replicate k '0' ++ l).dropWhile p = l.dropWhile p := by
  induction k with
  | zero => rfl
  | succ k ih => rw [List.replicate_succ, List.cons_append, List.dropWhile_cons_of_pos hp, ih]

theorem digit_ne_e {c : Char} (h : c.isDigit = true) : (c = 'e') = False := by
  simp only [eq_iff_iff, iff_false]
  intro he
  rw [he] at h
  exact absurd h (by decide)

theorem dropWhile_length_le {p : Char → Bool} (l : List Char) :
    (l.dropWhile p).length ≤ l.length := (List.dropWhile_sublist p).length_le

theorem sigDigitCount_g6Render (M : ℕ) (e : ℤ) (hml : 10 ^ 5 ≤ M) (hmu : M < 10 ^ 6) :
    sigDigitCount (g6Render M e) ≤ 6 := by
  obtain ⟨hne, hlen, hdig, h, t, hht, hh0⟩ := g6_ds_spec M hml hmu
  set ds := stripTrailingZeros (sixDigits M) with hds
  have hdsE : ∀ x ∈ ds, (fun c => decide ¬(c = 'e')) x = true := by
    intro x hx
    simp [digit_ne_e (hdig x hx)]
  rw [g6Render]
  simp only [← hds, if_neg hne]
  by_cases hb1 : e < -4 ∨ 6 ≤ e
  · -- scientific notation
    rw [if_pos hb1, sigDigitCount]
    have hA : ∀ x ∈ ds.take 1 ++ (if ds.length ≤ 1 then [] else '.' :: ds.drop 1),
        (fun c => decide ¬(c = 'e')) x = true := by
      intro x hx
      rcases List.mem_append.mp hx with hx | hx
      · exact hdsE x (List.take_subset 1 ds hx)
      · by_cases hb : ds.length ≤ 1
        · rw [if_pos hb] at hx
          exact absurd hx (List.not_mem_nil x)
        · rw [if_neg hb] at hx
          rcases List.mem_cons.mp hx with rfl | hx
          · decide
          · exact hdsE x (List.drop_subset 1 ds hx)
    rw [show ds.take 1 ++ (if ds.length ≤ 1 then [] else '.' :: ds.drop 1) ++
        'e' :: (if e < 0 then '-' else '+') :: expDigits e.natAbs =
        (ds.take 1 ++ (if ds.length ≤ 1 then [] else '.' :: ds.drop 1)) ++
        'e' :: (if e < 0 then '-' else '+') :: expDigits e.natAbs from by
      rw [List.append_assoc]]
    rw [takeWhile_append_stop hA (by decide)]
    by_cases hlen1 : ds.length ≤ 1
    · rw [if_pos hlen1]
      refine le_trans (dropWhile_length_le _) (le_trans (List.length_filter_le _ _) ?_)
      simp [List.length_take]
    · rw [if_neg hlen1]
      have hfil : (ds.take 1 ++ '.' :: ds.drop 1).filter Char.isDigit = ds := by
        rw [List.filter_append, List.filter_cons_of_neg (by decide),
          List.filter_eq_self.mpr (fun c hc => hdig c (List.take_subset 1 ds hc)),
          List.filter_eq_self.mpr (fun c hc => hdig c (List.drop_subset 1 ds hc)),
          List.take_append_drop]
      rw [hfil]
      calc (ds.dropWhile (fun c => c = '0')).length ≤ ds.length :=
          dropWhile_length_le _
      _ ≤ 6 := hlen
  · rw [if_neg hb1]
    push_neg at hb1
    by_cases hb2 : 0 ≤ e
    · -- fixed-point, non-negative exponent
      rw [if_pos hb2]
      have he5 : e.toNat + 1 ≤ 6 := by omega
      by_cases hcase : ds.length ≤ e.toNat + 1
      · rw [if_pos hcase, sigDigitCount]
        have hall : ∀ x ∈ ds ++ List.replicate (e.toNat + 1 - ds.length) '0',
            x.isDigit = true := by
          intro x hx
          rcases List.mem_append.mp hx with hx | hx
          · exact hdig x hx
          · rw [List.eq_of_mem_replicate hx]; decide
        rw [takeWhile_eq_self_of_all (fun x hx => by simp [digit_ne_e (hall x hx)]),
          List.filter_eq_self.mpr hall]
        calc ((ds ++ List.replicate (e.toNat + 1 - ds.length) '0').dropWhile
              (fun c => c = '0')).length
            ≤ (ds ++ List.replicate (e.toNat + 1 - ds.length) '0').length :=
              dropWhile_length_le _
        _ = ds.length + (e.toNat + 1 - ds.length) := by simp
        _ ≤ 6 := by omega
      · rw [if_neg hcase, sigDigitCount]
        have hA : ∀ x ∈ ds.take (e.toNat + 1) ++ '.' :: ds.drop (e.toNat + 1),
            (fun c => decide ¬(c = 'e')) x = true := by
          intro x hx
          rcases List.mem_append.mp hx with hx | hx
          · exact hdsE x (List.take_subset _ ds hx)
          · rcases List.mem_cons.mp hx with rfl | hx
            · decide
            · exact hdsE x (List.drop_subset _ ds hx)
        rw [takeWhile_eq_self_of_all hA]
        have hfil : (ds.take (e.toNat + 1) ++ '.' :: ds.drop (e.toNat + 1)).filter
            Char.isDigit = ds := by
          rw [List.filter_append, List.filter_cons_of_neg (by decide),
            List.filter_eq_self.mpr (fun c hc => hdig c (List.take_subset _ ds hc)),
            List.filter_eq_self.mpr (fun c hc => hdig c (List.drop_subset _ ds hc)),
            List.take_append_drop]
        rw [hfil]
        calc (ds.dropWhile (fun c => c = '0')).length ≤ ds.length :=
            dropWhile_length_le _
        _ ≤ 6 := hlen
    · -- fixed-point, negative exponent
      rw [if_neg hb2, sigDigitCount]
      have hall0 : ∀ x ∈ List.replicate ((-e).toNat - 1) '0' ++ ds, x.isDigit = true := by
        intro x hx
        rcases List.mem_append.mp hx with hx | hx
        · rw [List.eq_of_mem_replicate hx]; decide
        · exact hdig x hx
      have hA : ∀ x ∈ '0' :: '.' :: (List.replicate ((-e).toNat - 1) '0' ++ ds),
          (fun c => decide ¬(c = 'e')) x = true := by
        intro x hx
        rcases List.mem_cons.mp hx with rfl | hx
        · decide
        rcases List.mem_cons.mp hx with rfl | hx
        · decide
        · simp [digit_ne_e (hall0 x hx)]
      rw [takeWhile_eq_self_of_all hA]
      have hfil : ('0' :: '.' :: (List.replicate ((-e).toNat - 1) '0' ++ ds)).filter
          Char.isDigit = '0' :: (List.replicate ((-e).toNat - 1) '0' ++ ds) := by
        rw [List.filter_cons_of_pos (by decide), List.filter_cons_of_neg (by decide),
          List.filter_eq_self.mpr hall0]
      rw [hfil, show ('0' :: (List.replicate ((-e).toNat - 1) '0' ++ ds)) =
          List.replicate ((-e).toNat - 1 + 1) '0' ++ ds from by
        rw [List.replicate_succ, List.cons_append],
        dropWhile_replicate_append _ _ (by decide), hht,
        List.dropWhile_cons_of_neg (by simp [hh0])]
      rw [← hht]
      exact hlen

theorem sigDigitCount_neg_cons (l : List Char) :
    sigDigitCount ('-' :: l) = sigDigitCount l := by
  rw [sigDigitCount, sigDigitCount, List.takeWhile_cons, if_pos (by decide),
    List.filter_cons_of_neg (by decide)]

theorem sigDigitCount_g6_le (q : ℚ) : sigDigitCount (g6 q) ≤ 6 := by
  rw [g6]
  by_cases h0 : q = 0
  · rw [if_pos h0]
    decide
  · rw [if_neg h0]
    by_cases hneg : q < 0
    · rw [if_pos hneg, sigDigitCount_neg_cons, g6Pos]
      obtain ⟨h1, h2⟩ := g6Mantissa_bounds (-q) (by linarith)
      exact sigDigitCount_g6Render _ _ h1 h2
    · rw [if_neg hneg, g6Pos]
      have hq : 0 < q := lt_of_le_of_ne (not_lt.mp hneg) (Ne.symm h0)
      obtain ⟨h1, h2⟩ := g6Mantissa_bounds q hq
      exact sigDigitCount_g6Render _ _ h1 h2

theorem near_int_unique (x : ℚ) (n : ℤ) (h : |x - (n : ℚ)| < 1 / 1000000000) :
    n = pyRound x := by
  have hd := pyRound_dist x
  have htri : |(n : ℚ) - (pyRound x : ℚ)| ≤ |(n : ℚ) - x| + |x - (pyRound x : ℚ)| :=
    abs_sub_le _ _ _
  have hsym : |(n : ℚ) - x| = |x - (n : ℚ)| := abs_sub_comm _ _
  have hlt : |(n : ℚ) - (pyRound x : ℚ)| < 1 := by
    rw [hsym] at htri
    linarith
  have hcast : |((n - pyRound x : ℤ) : ℚ)| < 1 := by
    push_cast
    exact hlt
  have habs : |n - pyRound x| < 1 := by exact_mod_cast hcast
  have hb := abs_lt.mp habs
  omega

/-- C1 (amended): for non-negative pressure the formatter returns the
kbar value (pressure times 10), rendered as a bare integer string when the
scaled value is within `1e-9` of an integer, and otherwise in `%.6g` form
with at MOST six significant digits; the rendered string is the PSTRESS
field of both relaxation-parameter templates; negative pressure always
fails with the validation error. -/
theorem C1_pstress_formatting (p : ℚ) :
    (p < 0 → format_pstress_kbar p = .error "Pressure must be non-negative.".data) ∧
    (0 ≤ p → ∃ s, format_pstress_kbar p = .ok s ∧
      (incar1Lines s).getLast? = some ("PSTRESS = ".data ++ s) ∧
      (incar2Lines s).getLast? = some ("PSTRESS = ".data ++ s) ∧
      (∀ n : ℤ, |p * 10 - (n : ℚ)| < 1 / 1000000000 →
        s = pyStr n ∧ ∀ c ∈ s, c.isDigit = true) ∧
      ((∀ n : ℤ, 1 / 1000000000 ≤ |p * 10 - (n : ℚ)|) →
        s = g6 (p * 10) ∧ sigDigitCount s ≤ 6)) := by
  have hx : qMul p (mkRat 10 1) = p * 10 := by
    rw [qMul_eq, mkRat_int]
    push_cast
    ring
  have heps : (mkRat 1 1000000000 : ℚ) = 1 / 1000000000 := by
    rw [mkRat_eq_cast_div]
    norm_num
  constructor
  · intro hp
    simp only [format_pstress_kbar, hx]
    rw [if_pos (by linarith : p * 10 < 0)]
  · intro hp
    have hx0 : (0 : ℚ) ≤ p * 10 := by positivity
    simp only [format_pstress_kbar, hx]
    rw [if_neg (not_lt.mpr hx0)]
    have hre : |qSub (p * 10) (mkRat (pyRound (p * 10)) 1)| =
        |p * 10 - (pyRound (p * 10) : ℚ)| := by
      rw [qSub_eq, mkRat_int]
    by_cases hcond : |qSub (p * 10) (mkRat (pyRound (p * 10)) 1)| < mkRat 1 1000000000
    · rw [if_pos hcond]
      have hnear : |p * 10 - (pyRound (p * 10) : ℚ)| < 1 / 1000000000 := by
        rw [← hre, ← heps]
        exact hcond
      refine ⟨pyStr (pyRound (p * 10)), rfl, by rfl, by rfl, ?_, ?_⟩
      · intro n hn
        have hnr : n = pyRound (p * 10) := near_int_unique _ n hn
        refine ⟨by rw [hnr], ?_⟩
        intro c hc
        have hr0 : 0 ≤ pyRound (p * 10) :=
          le_pyRound_of_le 0 _ (by exact_mod_cast hx0)
        rw [pyStr, if_neg (by omega)] at hc
        exact List.all_eq_true.mp (pyStrNat_all_digits _) c hc
      · intro hfar
        exact absurd hnear (not_lt.mpr (hfar (pyRound (p * 10))))
    · rw [if_neg hcond]
      refine ⟨g6 (p * 10), rfl, by rfl, by rfl, ?_, ?_⟩
      · intro n hn
        exfalso
        have hnr : n = pyRound (p * 10) := near_int_unique _ n hn
        rw [hnr] at hn
        exact hcond (by rw [hre, heps]; exact hn)
      · intro hfar
        exact ⟨rfl, sigDigitCount_g6_le _⟩

/-- C1 counterexample: the claim as stated ("at least 6 significant
digits") fails on the spec's own example: pressure 1.234 GPa renders as
"12.34", which has four significant digits. -/
theorem C1_counterexample :
    format_pstress_kbar (mkRat 1234 1000) = .ok "12.34".data ∧
    sigDigitCount "12.34".data = 4 ∧ ¬6 ≤ sigDigitCount "12.34".data := by
  refine ⟨by decide, by decide, by decide⟩

/-- C1 witness: concrete instances through the amended theorem: pressure
-1 errors, pressure 250 renders the bare integer 2500, pressure 1.234
renders in compact decimal form with at most six significant digits. -/
theorem C1_pstress_formatting_witness :
    format_pstress_kbar (-1) = .error "Pressure must be non-negative.".data ∧
    (∃ s, format_pstress_kbar 250 = .ok s ∧ s = pyStr 2500 ∧
      ∀ c ∈ s, c.isDigit = true) ∧
    (∃ s, format_pstress_kbar (mkRat 1234 1000) = .ok s ∧
      s = g6 (mkRat 1234 1000 * 10) ∧ sigDigitCount s ≤ 6) := by
  refine ⟨(C1_pstress_formatting (-1)).1 (by norm_num), ?_, ?_⟩
  · obtain ⟨s, hok, _, _, hnear, _⟩ :=
      (C1_pstress_formatting 250).2 (by norm_num)
    have h := hnear 2500 (by norm_num)
    exact ⟨s, hok, h.1, h.2⟩
  · obtain ⟨s, hok, _, _, _, hfar⟩ :=
      (C1_pstress_formatting (mkRat 1234 1000)).2 (by rw [mkRat_eq_cast_div]; norm_num)
    have hval : (mkRat 1234 1000 : ℚ) = 1234 / 1000 := by
      rw [mkRat_eq_cast_div]; norm_num
    have h := hfar ?_
    · exact ⟨s, hok, h.1, h.2⟩
    · intro n
      rw [hval]
      have hcases : n ≤ 12 ∨ 13 ≤ n := by omega
      rcases hcases with hn | hn
      · have : (n : ℚ) ≤ 12 := by exact_mod_cast hn
        rw [abs_of_nonneg (by linarith)]
        linarith
      · have : (13 : ℚ) ≤ (n : ℚ) := by exact_mod_cast hn
        rw [abs_of_nonpos (by linarith)]
        linarith

/-! ## Claim C10: keys of the radius map -/

/-- Key sequence of a Python dict built by repeated insertion: first
occurrences, in input order. -/
def pyDedup (l : List String) : List String :=
  l.foldl (fun ks e => if e ∈ ks then ks else ks ++ [e]) []

theorem assocSet_keys (m : List (String × ℚ)) (k : String) (v : ℚ) :
    (assocSet m k v).map Prod.fst =
      if k ∈ m.map Prod.fst then m.map Prod.fst else m.map Prod.fst ++ [k] := by
  rw [assocSet]
  by_cases hmem : k ∈ m.map Prod.fst
  · obtain ⟨p, hp, hpk⟩ := List.mem_map.mp hmem
    rw [if_pos (List.any_eq_true.mpr ⟨p, hp, by simp [hpk]⟩), if_pos hmem,
      List.map_map]
    apply List.map_congr_left
    intro p' _
    by_cases hp' : p'.1 = k
    · simp [hp']
    · simp [hp']
  · have hany : ¬m.any (fun p => decide (p.1 = k)) = true := by
      intro hc
      obtain ⟨p, hp, hpk⟩ := List.any_eq_true.mp hc
      exact hmem (List.mem_map.mpr ⟨p, hp, by simpa using hpk⟩)
    rw [if_neg hany, if_neg hmem]
    simp

theorem findPotcarGo_keys (env : PotEnv) (root : String) (elements : List String) :
    ∀ content rwigs picked res,
      findPotcarGo env root elements content rwigs picked = .ok res →
      res.2.1.map Prod.fst =
        elements.foldl (fun ks e => if e ∈ ks then ks else ks ++ [e])
          (rwigs.map Prod.fst) := by
  induction elements with
  | nil =>
      intro content rwigs picked res h
      rw [findPotcarGo] at h
      cases h
      rfl
  | cons e rest ih =>
      intro content rwigs picked res h
      rw [findPotcarGo] at h
      cases hsel : selectPotcarDir env e with
      | none =>
          simp only [hsel] at h
          exact absurd h (by simp)
      | some d =>
          simp only [hsel] at h
          cases hext : extractRwigs (envText env d) (potcarPath root d) with
          | error msg =>
              simp only [hext] at h
              exact absurd h (by simp)
          | ok chosen =>
              simp only [hext] at h
              have hres := ih _ _ _ _ h
              rw [hres, List.foldl_cons, assocSet_keys]

theorem find_potcar_keys (elements : List String) (env : PotEnv) (root : String)
    (pr : PotcarResult) (h : find_potcar elements env root = .ok pr) :
    pr.rwigs.map Prod.fst = pyDedup elements := by
  rw [find_potcar] at h
  cases hgo : findPotcarGo env root elements [] [] [] with
  | error msg => rw [hgo] at h; cases h
  | ok res =>
      rw [hgo] at h
      cases h
      exact findPotcarGo_keys env root elements [] [] [] res hgo

theorem pyDedup_foldl_mem (l : List String) :
    ∀ init x, (x ∈ l.foldl (fun ks e => if e ∈ ks then ks else ks ++ [e]) init ↔
      x ∈ init ∨ x ∈ l) := by
  induction l with
  | nil => intro init x; simp
  | cons e rest ih =>
      intro init x
      rw [List.foldl_cons, ih]
      by_cases hmem : e ∈ init
      · rw [if_pos hmem]
        constructor
        · rintro (h | h)
          · exact Or.inl h
          · exact Or.inr (List.mem_cons_of_mem e h)
        · rintro (h | h)
          · exact Or.inl h
          · rcases List.mem_cons.mp h with rfl | h
            · exact Or.inl hmem
            · exact Or.inr h
      · rw [if_neg hmem]
        simp only [List.mem_append, List.mem_singleton, List.mem_cons]
        tauto

theorem pyDedup_mem (l : List String) (x : String) : x ∈ pyDedup l ↔ x ∈ l := by
  rw [pyDedup, pyDedup_foldl_mem]
  simp

theorem pyDedup_foldl_nodup (l : List String) :
    ∀ init : List String, init.Nodup →
      (l.foldl (fun ks e => if e ∈ ks then ks else ks ++ [e]) init).Nodup := by
  induction l with
  | nil => intro init h; exact h
  | cons e rest ih =>
      intro init h
      rw [List.foldl_cons]
      by_cases hmem : e ∈ init
      · rw [if_pos hmem]; exact ih init h
      · rw [if_neg hmem]
        refine ih _ ?_
        rw [List.nodup_append]
        exact ⟨h, List.nodup_singleton e,
          fun a ha hb => hmem (by rwa [List.mem_singleton.mp hb] at ha)⟩

theorem pyDedup_nodup (l : List String) : (pyDedup l).Nodup :=
  pyDedup_foldl_nodup l [] List.nodup_nil

theorem pyDedup_foldl_of_nodup (l : List String) :
    ∀ init : List String, l.Nodup → (∀ e ∈ l, e ∉ init) →
      l.foldl (fun ks e => if e ∈ ks then ks else ks ++ [e]) init = init ++ l := by
  induction l with
  | nil => intro init _ _; simp
  | cons e rest ih =>
      intro init hnd hdisj
      rw [List.foldl_cons, if_neg (hdisj e (List.mem_cons_self e rest)),
        ih _ (List.Nodup.of_cons hnd) ?_, List.append_assoc, List.singleton_append]
      intro x hx
      rw [List.mem_append, List.mem_singleton]
      rintro (hxi | rfl)
      · exact hdisj x (List.mem_cons_of_mem e hx) hxi
      · exact (List.nodup_cons.mp hnd).1 hx

theorem pyDedup_of_nodup (l : List String) (h : l.Nodup) : pyDedup l = l := by
  rw [pyDedup, pyDedup_foldl_of_nodup l [] h (fun e _ => List.not_mem_nil e)]
  rfl

/-- C10 (amended): the radius map returned by a successful resolution has
one entry per DISTINCT requested element, keyed in first-occurrence order;
for a duplicate-free element list this is one entry per requested element
in input order, and the distance matrix built from the map is then square
of dimension the length of the element list, matching the rendered
NumberOfSpecies field. -/
theorem C10_radius_map (elements : List String) (env : PotEnv) (root : String)
    (pr : PotcarResult) (h : find_potcar elements env root = .ok pr) :
    pr.rwigs.map Prod.fst = pyDedup elements ∧
    (∀ e, e ∈ pr.rwigs.map Prod.fst ↔ e ∈ elements) ∧
    (pr.rwigs.map Prod.fst).Nodup ∧
    (elements.Nodup → pr.rwigs.map Prod.fst = elements ∧
      (calculate_distance_of_ion pr.rwigs).length = elements.length) ∧
    (∀ (atom_counts : List ℤ) (matrix : List (List ℚ)) (minD : Option ℚ) d,
      create_input_dat elements atom_counts matrix minD false 1 false none none 1 =
        .ok d → d.numSpecies = elements.length) := by
  have hkeys := find_potcar_keys elements env root pr h
  refine ⟨hkeys, ?_, ?_, ?_, ?_⟩
  · intro e
    rw [hkeys]
    exact pyDedup_mem elements e
  · rw [hkeys]
    exact pyDedup_nodup elements
  · intro hnd
    have hke : pr.rwigs.map Prod.fst = elements := by
      rw [hkeys]
      exact pyDedup_of_nodup elements hnd
    refine ⟨hke, ?_⟩
    have hlen : pr.rwigs.length = elements.length := by
      rw [← hke, List.length_map]
    rw [calculate_distance_of_ion, List.length_map, hlen]
  · intro atom_counts matrix minD d hd
    rw [create_input_dat] at hd
    simp only [Bool.false_eq_true, if_false] at hd
    cases hd
    rfl

/-- C10 witness: a duplicate-free resolution keeps one entry per element
in input order and yields a matching matrix dimension. -/
theorem C10_radius_map_witness :
    ∃ pr, find_potcar ["Fe", "O"]
        [("Fe_pv", "RWIGS = 1.20; RWIGS = 1.10".data), ("O", "RWIGS = 0.80".data)]
        "root" = .ok pr ∧
      pr.rwigs.map Prod.fst = ["Fe", "O"] ∧
      (calculate_distance_of_ion pr.rwigs).length = 2 := by
  have heval : find_potcar ["Fe", "O"]
      [("Fe_pv", "RWIGS = 1.20; RWIGS = 1.10".data), ("O", "RWIGS = 0.80".data)]
      "root" = .ok ⟨[("Fe", mkRat 11 10), ("O", mkRat 4 5)], some (mkRat 4 5),
        "RWIGS = 1.20; RWIGS = 1.10".data ++ "RWIGS = 0.80".data⟩ := by decide
  have hc := C10_radius_map _ _ _ _ heval
  exact ⟨_, heval, (hc.2.2.2.1 (by decide)).1, (hc.2.2.2.1 (by decide)).2⟩

/-- C10 counterexample: with the repeated element list [Fe, Fe], the
returned radius map has a single entry, and the distance matrix is 1-by-1,
not 2-by-2 as the element-list length (and the rendered NumberOfSpecies
field, which equals 2) would require. -/
theorem C10_counterexample :
    (find_potcar ["Fe", "Fe"] [("Fe", "RWIGS = 1.0".data)] "root").map
        (fun pr => ((pr.rwigs.map Prod.fst).length,
          (calculate_distance_of_ion pr.rwigs).length)) = .ok (1, 1) ∧
    (["Fe", "Fe"] : List String).length = 2 ∧ ¬(1 = 2) := by
  refine ⟨by decide, by decide, by decide⟩

/-! ## Claim C7: suffix priority and the NotFound error -/

theorem findPotcarGo_append_ok (env : PotEnv) (root : String) (xs : List String) :
    ∀ ys content rwigs picked res,
      findPotcarGo env root xs content rwigs picked = .ok res →
      findPotcarGo env root (xs ++ ys) content rwigs picked =
        findPotcarGo env root ys res.1 res.2.1 res.2.2 := by
  induction xs with
  | nil =>
      intro ys content rwigs picked res h
      rw [findPotcarGo] at h
      cases h
      rfl
  | cons e rest ih =>
      intro ys content rwigs picked res h
      rw [findPotcarGo] at h
      rw [List.cons_append, findPotcarGo]
      cases hsel : selectPotcarDir env e with
      | none =>
          simp only [hsel] at h
          exact absurd h (by simp)
      | some d =>
          simp only [hsel] at h
          simp only [hsel]
          cases hext : extractRwigs (envText env d) (potcarPath root d) with
          | error msg =>
              simp only [hext] at h
              exact absurd h (by simp)
          | ok chosen =>
              simp only [hext] at h
              simp only [hext]
              exact ih ys _ _ _ res h

/-- C7: for every element the pseudopotential directory is selected by
trying the suffixes _pv, _sv, "" and _s in priority order; when no
variant exists for an element that resolution reaches, the run fails
with the NotFound message naming that element and the root, and the
orchestrator then returns with the file-system state untouched (no
shared file, the concatenated POTCAR included, has been written). -/
theorem C7_potcar_priority_notfound (env : PotEnv) (root : String) :
    (∀ element : String,
      ((element ++ "_pv") ∈ envDirs env →
        selectPotcarDir env element = some (element ++ "_pv")) ∧
      ((element ++ "_pv") ∉ envDirs env → (element ++ "_sv") ∈ envDirs env →
        selectPotcarDir env element = some (element ++ "_sv")) ∧
      ((element ++ "_pv") ∉ envDirs env → (element ++ "_sv") ∉ envDirs env →
        element ∈ envDirs env → selectPotcarDir env element = some element) ∧
      ((element ++ "_pv") ∉ envDirs env → (element ++ "_sv") ∉ envDirs env →
        element ∉ envDirs env → (element ++ "_s") ∈ envDirs env →
        selectPotcarDir env element = some (element ++ "_s")) ∧
      ((element ++ "_pv") ∉ envDirs env → (element ++ "_sv") ∉ envDirs env →
        element ∉ envDirs env → (element ++ "_s") ∉ envDirs env →
        selectPotcarDir env element = none)) ∧
    (∀ (pre : List String) (e : String) (post : List String) (pr0 : PotcarResult),
      find_potcar pre env root = .ok pr0 →
      selectPotcarDir env e = none →
      find_potcar (pre ++ e :: post) env root = .error (notFoundMsg e root) ∧
      (∃ x y, notFoundMsg e root = x ++ e.data ++ y) ∧
      (∃ x y, notFoundMsg e root = x ++ root.data ++ y) ∧
      (∀ (cfg : SetupConfig) (fs0 : FS) (uf : List RelPath),
        cfg.elements = pre ++ e :: post →
        setup_calypso cfg env root fs0 uf = (.error (notFoundMsg e root), fs0))) := by
  constructor
  · intro element
    have hemp : element ++ "" = element := by simp
    refine ⟨?_, ?_, ?_, ?_, ?_⟩
    · intro h1
      rw [selectPotcarDir, potcarSuffixes]
      simp only [List.map_cons, List.map_nil]
      rw [List.find?_cons_of_pos _ (by simpa using h1)]
    · intro h1 h2
      rw [selectPotcarDir, potcarSuffixes]
      simp only [List.map_cons, List.map_nil]
      rw [List.find?_cons_of_neg _ (by simpa using h1),
        List.find?_cons_of_pos _ (by simpa using h2)]
    · intro h1 h2 h3
      rw [selectPotcarDir, potcarSuffixes]
      simp only [List.map_cons, List.map_nil]
      rw [List.find?_cons_of_neg _ (by simpa using h1),
        List.find?_cons_of_neg _ (by simpa using h2),
        List.find?_cons_of_pos _ (by simpa [hemp] using h3), hemp]
    · intro h1 h2 h3 h4
      rw [selectPotcarDir, potcarSuffixes]
      simp only [List.map_cons, List.map_nil]
      rw [List.find?_cons_of_neg _ (by simpa using h1),
        List.find?_cons_of_neg _ (by simpa using h2),
        List.find?_cons_of_neg _ (by simpa [hemp] using h3),
        List.find?_cons_of_pos _ (by simpa using h4)]
    · intro h1 h2 h3 h4
      rw [selectPotcarDir, potcarSuffixes]
      simp only [List.map_cons, List.map_nil]
      rw [List.find?_cons_of_neg _ (by simpa using h1),
        List.find?_cons_of_neg _ (by simpa using h2),
        List.find?_cons_of_neg _ (by simpa [hemp] using h3),
        List.find?_cons_of_neg _ (by simpa using h4)]
      rfl
  · intro pre e post pr0 hpre hsel
    have herr : find_potcar (pre ++ e :: post) env root = .error (notFoundMsg e root) := by
      rw [find_potcar] at hpre
      cases hgo : findPotcarGo env root pre [] [] [] with
      | error msg => rw [hgo] at hpre; exact absurd hpre (by simp)
      | ok res =>
          rw [find_potcar, findPotcarGo_append_ok env root pre (e :: post) _ _ _ res hgo,
            findPotcarGo]
          simp only [hsel]
    refine ⟨herr, ⟨"No suitable POTCAR found for ".data,
      " in ".data ++ root.data, by
        rw [notFoundMsg]
        simp [List.append_assoc]⟩,
      ⟨"No suitable POTCAR found for ".data ++ e.data ++ " in ".data, [], by
        rw [notFoundMsg]
        simp [List.append_assoc]⟩, ?_⟩
    intro cfg fs0 uf hcfg
    rw [setup_calypso, hcfg, herr]

/-- C7 witness: an environment with Fe (bare) and Fe_sv but no variant of
Zz: Fe_sv is preferred over Fe, and a run requesting [Fe, Zz] fails with
the NotFound message leaving the file system untouched. -/
theorem C7_potcar_priority_notfound_witness :
    selectPotcarDir [("Fe", "RWIGS = 1.0".data), ("Fe_sv", "RWIGS = 1.0".data)]
      "Fe" = some ("Fe" ++ "_sv") ∧
    setup_calypso
      { elements := ["Fe", "Zz"], atom_counts := [1, 1], formula_multipliers := [1],
        pressure_gpa := 0, calypso_executable := "c", vasp_executable := "v",
        is_2d := false, num_layers := 1, relax_z := false, layer_type_matrix := none }
      [("Fe", "RWIGS = 1.0".data), ("Fe_sv", "RWIGS = 1.0".data)] "root" ⟨[]⟩ [] =
      (.error (notFoundMsg "Zz" "root"), ⟨[]⟩) := by
  constructor
  · exact ((C7_potcar_priority_notfound
      [("Fe", "RWIGS = 1.0".data), ("Fe_sv", "RWIGS = 1.0".data)] "root").1 "Fe").2.1
      (by decide) (by decide)
  · refine ((C7_potcar_priority_notfound
      [("Fe", "RWIGS = 1.0".data), ("Fe_sv", "RWIGS = 1.0".data)] "root").2
      ["Fe"] "Zz" [] ⟨[("Fe", 1)], some 1, "RWIGS = 1.0".data⟩ ?_ (by decide)).2.2.2
      _ _ _ rfl
    decide

/-! ## File-system reasoning -/

theorem find?_map_replace {α β : Type} [DecidableEq α] (k q : α) (v : β)
    (hqk : q ≠ k) (m : List (α × β)) :
    (m.map (fun p => if p.1 = k then (k, v) else p)).find? (fun e => e.1 = q) =
      m.find? (fun e => e.1 = q) := by
  induction m with
  | nil => rfl
  | cons e rest ih =>
      rw [List.map_cons]
      by_cases hek : e.1 = k
      · rw [if_pos hek, List.find?_cons_of_neg _ (by simpa using Ne.symm hqk),
          List.find?_cons_of_neg _ (by simp [hek, Ne.symm hqk]), ih]
      · rw [if_neg hek]
        by_cases heq : e.1 = q
        · rw [List.find?_cons_of_pos _ (by simpa using heq),
            List.find?_cons_of_pos _ (by simpa using heq)]
        · rw [List.find?_cons_of_neg _ (by simpa using heq),
            List.find?_cons_of_neg _ (by simpa using heq), ih]

theorem find?_map_replace_hit {α β : Type} [DecidableEq α] (k : α) (v : β)
    (m : List (α × β)) (hmem : m.any (fun p => p.1 = k) = true) :
    (m.map (fun p => if p.1 = k then (k, v) else p)).find? (fun e => e.1 = k) =
      some (k, v) := by
  induction m with
  | nil => simp at hmem
  | cons e rest ih =>
      rw [List.map_cons]
      by_cases hek : e.1 = k
      · rw [if_pos hek, List.find?_cons_of_pos _ (by simp)]
      · rw [if_neg hek, List.find?_cons_of_neg _ (by simpa using hek)]
        apply ih
        rw [List.any_cons] at hmem
        simpa [hek] using hmem

theorem find?_assocSet {α β : Type} [DecidableEq α] (m : List (α × β)) (k q : α)
    (v : β) :
    (assocSet m k v).find? (fun e => e.1 = q) =
      if q = k then some (k, v) else m.find? (fun e => e.1 = q) := by
  rw [assocSet]
  by_cases hany : m.any (fun p => decide (p.1 = k)) = true
  · rw [if_pos hany]
    by_cases hqk : q = k
    · subst hqk
      rw [if_pos rfl, find?_map_replace_hit q v m (by simpa using hany)]
    · rw [if_neg hqk, find?_map_replace k q v hqk m]
  · rw [if_neg hany]
    have hnone : m.find? (fun e => e.1 = k) = none := by
      rw [List.find?_eq_none]
      intro p hp hpk
      exact hany (List.any_eq_true.mpr ⟨p, hp, by simpa using hpk⟩)
    rw [List.find?_append]
    by_cases hqk : q = k
    · subst hqk
      rw [if_pos rfl, hnone]
      simp [List.find?]
    · rw [if_neg hqk]
      cases hfq : m.find? (fun e => e.1 = q) with
      | some p => simp [hfq]
      | none => simp [hfq, List.find?, Ne.symm hqk]

theorem fsRead_write (fs : FS) (p q : RelPath) (c : List Char) :
    fsRead (fsWrite fs p c) q = if q = p then some c else fsRead fs q := by
  simp only [fsRead, fsWrite]
  rw [find?_assocSet fs.files p q c]
  by_cases hqp : q = p
  · rw [if_pos hqp, if_pos hqp]
  · rw [if_neg hqp, if_neg hqp]

theorem fsRead_unlink (fs : FS) (p q : RelPath) :
    fsRead (fsUnlink fs p) q = if q = p then none else fsRead fs q := by
  simp only [fsRead, fsUnlink]
  by_cases hqp : q = p
  · rw [if_pos hqp]
    subst hqp
    have hnone : (fs.files.filter (fun e => ¬e.1 = q)).find? (fun e => e.1 = q) = none := by
      rw [List.find?_eq_none]
      intro e he heq
      have := List.of_mem_filter he
      simp only [decide_not, Bool.not_eq_true'] at this
      rw [decide_eq_true_eq] at heq
      rw [heq] at this
      simp at this
    rw [hnone]
  · rw [if_neg hqp]
    have heq : (fs.files.filter (fun e => ¬e.1 = p)).find? (fun e => e.1 = q) =
        fs.files.find? (fun e => e.1 = q) := by
      induction fs.files with
      | nil => rfl
      | cons e rest ih =>
          by_cases hep : e.1 = p
          · rw [List.filter_cons_of_neg (by simpa using hep),
              List.find?_cons_of_neg _ (by simp [hep, Ne.symm hqp]), ih]
          · rw [List.filter_cons_of_pos (by simpa using hep)]
            by_cases heq' : e.1 = q
            · rw [List.find?_cons_of_pos _ (by simpa using heq'),
                List.find?_cons_of_pos _ (by simpa using heq')]
            · rw [List.find?_cons_of_neg _ (by simpa using heq'),
                List.find?_cons_of_neg _ (by simpa using heq'), ih]
    rw [heq]

theorem ne_singleton_of_len2 (q : RelPath) (hq : q.length ≠ 1) (s : String) :
    q ≠ [s] := by
  intro h
  rw [h] at hq
  simp at hq

theorem rootWrites_read (cfg : SetupConfig) (fs0 : FS) (pr : PotcarResult)
    (pstress : List Char) (n : String) (hn : n ∈ filesToCopy) :
    fsRead (rootWrites cfg fs0 pr pstress) [n] =
      some (rootContent cfg pr pstress n) := by
  fin_cases hn <;> simp [rootWrites, fsRead_write, rootContent]

theorem rootWrites_frame (cfg : SetupConfig) (fs0 : FS) (pr : PotcarResult)
    (pstress : List Char) (q : RelPath) (hq : q.length ≠ 1) :
    fsRead (rootWrites cfg fs0 pr pstress) q = fsRead fs0 q := by
  simp only [rootWrites, fsRead_write]
  rw [if_neg (ne_singleton_of_len2 q hq _), if_neg (ne_singleton_of_len2 q hq _),
    if_neg (ne_singleton_of_len2 q hq _), if_neg (ne_singleton_of_len2 q hq _),
    if_neg (ne_singleton_of_len2 q hq _), if_neg (ne_singleton_of_len2 q hq _)]

theorem copyAll_reads (dirName : String) :
    ∀ (names : List String) (fs fs' : FS), names.Nodup →
      copyAll fs dirName names = .ok fs' →
      (∀ q, (∀ n ∈ names, q ≠ [dirName, n]) → fsRead fs' q = fsRead fs q) ∧
      (∀ n ∈ names, fsRead fs' [dirName, n] = fsRead fs [n]) := by
  intro names
  induction names with
  | nil =>
      intro fs fs' _ h
      rw [copyAll] at h
      cases h
      exact ⟨fun q _ => rfl, fun n hn => absurd hn (List.not_mem_nil n)⟩
  | cons n rest ih =>
      intro fs fs' hnd h
      rw [copyAll] at h
      cases hr : fsRead fs [n] with
      | none =>
          rw [hr] at h
          exact absurd h (by simp)
      | some c =>
          rw [hr] at h
          obtain ⟨hframe, hcopies⟩ :=
            ih (fsWrite fs [dirName, n] c) fs' (List.Nodup.of_cons hnd) h
          have hwrite := fsRead_write fs [dirName, n]
          constructor
          · intro q hq
            rw [hframe q (fun n' hn' => hq n' (List.mem_cons_of_mem n hn')),
              hwrite q c, if_neg (hq n (List.mem_cons_self n rest))]
          · intro m hm
            rcases List.mem_cons.mp hm with rfl | hm
            · rw [hframe [dirName, m] ?_, hwrite _ c, if_pos rfl, hr]
              intro n' hn' hcontra
              have hmn : m = n' := by
                have := congrArg (fun l => l.getD 1 "") hcontra
                simpa using this
              exact (List.nodup_cons.mp hnd).1 (hmn ▸ hn')
            · rw [hcopies m hm, hwrite [m] c,
                if_neg (by intro hcontra; simpa using congrArg List.length hcontra)]

theorem string_pyStr_injective (a b : ℤ)
    (h : String.mk (pyStr a) = String.mk (pyStr b)) : a = b := by
  apply pyStr_injective
  exact congrArg String.data h

theorem setupLoop_ok (ctx : RunCtx) :
    ∀ (ms : List ℤ) (dirs0 : List String) (fs0 : FS) (dirs : List String) (fs : FS),
      setupLoop ctx ms dirs0 fs0 = (.ok dirs, fs) →
      (∀ n ∈ filesToCopy, fsRead fs0 [n] =
        some (rootContent ctx.cfg ctx.pr ctx.pstress n)) →
      dirs = dirs0 ++ ms.map (fun m => String.mk (pyStr m)) ∧
      (∀ q : RelPath, (∀ m ∈ ms, ∀ x : String, q ≠ [String.mk (pyStr m), x]) →
        fsRead fs q = fsRead fs0 q) ∧
      (∀ m ∈ ms, ∃ d, renderFor ctx m = .ok d ∧
        fsRead fs [String.mk (pyStr m), "input.dat"] =
          some (contentOfLines (inputDatLines d)) ∧
        ∀ n ∈ filesToCopy, fsRead fs [String.mk (pyStr m), n] =
          some (rootContent ctx.cfg ctx.pr ctx.pstress n)) := by
  intro ms
  induction ms with
  | nil =>
      intro dirs0 fs0 dirs fs h hroot
      rw [setupLoop] at h
      cases h
      exact ⟨by simp, fun q _ => rfl, fun m hm => absurd hm (List.not_mem_nil m)⟩
  | cons m rest ih =>
      intro dirs0 fs0 dirs fs h hroot
      rw [setupLoop] at h
      cases hrender : renderFor ctx m with
      | error e =>
          simp only [hrender] at h
          exact absurd h (by simp)
      | ok d =>
          simp only [hrender] at h
          set dirName := String.mk (pyStr m) with hdn
          set fs1 := fsWrite fs0 [dirName, "input.dat"]
            (contentOfLines (inputDatLines d)) with hfs1
          cases hcopy : copyAll fs1 dirName filesToCopy with
          | error e =>
              simp only [hcopy] at h
              exact absurd h (by simp)
          | ok fs2 =>
              simp only [hcopy] at h
              have hnodup : filesToCopy.Nodup := by decide
              obtain ⟨hcframe, hccopies⟩ := copyAll_reads dirName filesToCopy fs1 fs2
                hnodup hcopy
              have hfs1read : ∀ q, fsRead fs1 q =
                  if q = [dirName, "input.dat"]
                  then some (contentOfLines (inputDatLines d)) else fsRead fs0 q :=
                fun q => fsRead_write fs0 [dirName, "input.dat"] q
                  (contentOfLines (inputDatLines d))
              -- root files survive the write and the copies
              have hroot2 : ∀ n ∈ filesToCopy, fsRead fs2 [n] =
                  some (rootContent ctx.cfg ctx.pr ctx.pstress n) := by
                intro n hn
                rw [hcframe [n] (fun n' _ => by
                    intro hcontra
                    simpa using congrArg List.length hcontra),
                  hfs1read [n], if_neg (by
                    intro hcontra
                    simpa using congrArg List.length hcontra)]
                exact hroot n hn
              obtain ⟨hdirs, hframe, hmfacts⟩ := ih _ _ _ _ h hroot2
              refine ⟨by rw [hdirs]; simp, ?_, ?_⟩
              · intro q hq
                rw [hframe q (fun m' hm' x => hq m' (List.mem_cons_of_mem m hm') x),
                  hcframe q (fun n' _ => hq m (List.mem_cons_self m rest) n'),
                  hfs1read q, if_neg (hq m (List.mem_cons_self m rest) "input.dat")]
              · intro m' hm'
                by_cases hmr : m' ∈ rest
                · exact hmfacts m' hmr
                · have hm'm : m' = m := by
                    rcases List.mem_cons.mp hm' with h' | h'
                    · exact h'
                    · exact absurd h' hmr
                  subst hm'm
                  refine ⟨d, hrender, ?_, ?_⟩
                  · rw [hframe [dirName, "input.dat"] ?hfr,
                      hcframe [dirName, "input.dat"] (fun n' hn' => by
                        intro hcontra
                        have : "input.dat" = n' := by
                          simpa using congrArg (fun l => l.getD 1 "") hcontra
                        rw [← this] at hn'
                        exact absurd hn' (by decide)),
                      hfs1read _, if_pos rfl]
                    case hfr =>
                      intro m2 hm2 x hcontra
                      have hheads : dirName = String.mk (pyStr m2) := by
                        simpa using congrArg (fun l => l.getD 0 "") hcontra
                      exact hmr (string_pyStr_injective m' m2 hheads ▸ hm2)
                  · intro n hn
                    rw [hframe [dirName, n] (fun m2 hm2 x hcontra => by
                        have hheads : dirName = String.mk (pyStr m2) := by
                          simpa using congrArg (fun l => l.getD 0 "") hcontra
                        exact hmr (string_pyStr_injective m' m2 hheads ▸ hm2)),
                      hccopies n hn, hfs1read [n], if_neg (by
                        intro hcontra
                        simpa using congrArg List.length hcontra)]
                    exact hroot n hn

theorem setup_calypso_ok_destruct (cfg : SetupConfig) (env : PotEnv) (root : String)
    (fs0 : FS) (uf : List RelPath) (dirs : List String) (fs : FS)
    (h : setup_calypso cfg env root fs0 uf = (.ok dirs, fs)) :
    ∃ pr pstress baseArea fsloop,
      find_potcar cfg.elements env root = .ok pr ∧
      format_pstress_kbar cfg.pressure_gpa = .ok pstress ∧
      computeBaseArea cfg pr.rwigs = .ok baseArea ∧
      setupLoop ⟨cfg, pr, pstress, calculate_distance_of_ion pr.rwigs, baseArea⟩
        cfg.formula_multipliers [] (rootWrites cfg fs0 pr pstress) =
        (.ok dirs, fsloop) ∧
      fs = unlinkStage fsloop uf := by
  rw [setup_calypso] at h
  cases hfp : find_potcar cfg.elements env root with
  | error e =>
      simp only [hfp] at h
      exact absurd h (by simp)
  | ok pr =>
      simp only [hfp] at h
      cases hfmt : format_pstress_kbar cfg.pressure_gpa with
      | error e =>
          simp only [hfmt] at h
          exact absurd h (by simp)
      | ok pstress =>
          simp only [hfmt] at h
          cases hba : computeBaseArea cfg pr.rwigs with
          | error e =>
              simp only [hba] at h
              exact absurd h (by simp)
          | ok baseArea =>
              simp only [hba] at h
              cases hloop : setupLoop ⟨cfg, pr, pstress,
                  calculate_distance_of_ion pr.rwigs, baseArea⟩
                  cfg.formula_multipliers [] (rootWrites cfg fs0 pr pstress) with
              | mk out fsloop =>
                  rw [hloop] at h
                  cases out with
                  | error e => exact absurd h (by simp)
                  | ok dirs' =>
                      simp only [Prod.mk.injEq, Except.ok.injEq] at h
                      refine ⟨pr, pstress, baseArea, fsloop, rfl, rfl, ?_, ?_, ?_⟩
                      · exact hba
                      · rw [hloop, h.1]
                      · exact h.2.symm

theorem unlinkFold_read (uf : List RelPath) :
    ∀ (names : List String) (fs : FS) (q : RelPath),
      fsRead (names.foldl
        (fun fs' n => if [n] ∈ uf then fs' else fsUnlink fs' [n]) fs) q =
        if ∃ n ∈ names, q = [n] ∧ [n] ∉ uf then none else fsRead fs q := by
  intro names
  induction names with
  | nil => intro fs q; simp
  | cons n rest ih =>
      intro fs q
      rw [List.foldl_cons, ih]
      by_cases hn : [n] ∈ uf
      · rw [if_pos hn]
        by_cases hex : ∃ x ∈ rest, q = [x] ∧ [x] ∉ uf
        · rw [if_pos hex, if_pos ?_]
          obtain ⟨x, hx, hqx, hxuf⟩ := hex
          exact ⟨x, List.mem_cons_of_mem n hx, hqx, hxuf⟩
        · rw [if_neg hex, if_neg ?_]
          intro ⟨x, hx, hqx, hxuf⟩
          rcases List.mem_cons.mp hx with rfl | hx
          · exact hxuf (hqx ▸ hqx ▸ hn)
          · exact hex ⟨x, hx, hqx, hxuf⟩
      · rw [if_neg hn]
        by_cases hex : ∃ x ∈ rest, q = [x] ∧ [x] ∉ uf
        · rw [if_pos hex, if_pos ?_]
          obtain ⟨x, hx, hqx, hxuf⟩ := hex
          exact ⟨x, List.mem_cons_of_mem n hx, hqx, hxuf⟩
        · rw [if_neg hex, fsRead_unlink]
          by_cases hqn : q = [n]
          · rw [if_pos hqn, if_pos ⟨n, List.mem_cons_self n rest, hqn, hn⟩]
          · rw [if_neg hqn, if_neg ?_]
            intro ⟨x, hx, hqx, hxuf⟩
            rcases List.mem_cons.mp hx with rfl | hx
            · exact hqn hqx
            · exact hex ⟨x, hx, hqx, hxuf⟩

theorem fsRead_unlinkStage (fs : FS) (uf : List RelPath) (q : RelPath) :
    fsRead (unlinkStage fs uf) q =
      if ∃ n ∈ filesToCopy, q = [n] ∧ [n] ∉ uf then none else fsRead fs q := by
  rw [unlinkStage, unlinkFold_read]

/-- C5 (amended): there are six shared top-level files; after every
successful orchestrator run none of them remains at the destination root
(except any whose deletion the environment made fail), every
per-multiplier subdirectory retains its own copy of each of them together
with its input.dat, and deletion failures are non-fatal: for every
failure oracle the run returns the same created-directory list. -/
theorem C5_shared_cleanup (cfg : SetupConfig) (env : PotEnv) (root : String)
    (fs0 : FS) (uf : List RelPath) (dirs : List String) (fs : FS)
    (h : setup_calypso cfg env root fs0 uf = (.ok dirs, fs)) :
    filesToCopy.length = 6 ∧
    (∀ n ∈ filesToCopy, [n] ∉ uf → fsRead fs [n] = none) ∧
    (∀ m ∈ cfg.formula_multipliers, ∀ n ∈ filesToCopy,
      ∃ c, fsRead fs [String.mk (pyStr m), n] = some c) ∧
    (∀ m ∈ cfg.formula_multipliers,
      ∃ c, fsRead fs [String.mk (pyStr m), "input.dat"] = some c) ∧
    dirs = cfg.formula_multipliers.map (fun m => String.mk (pyStr m)) ∧
    (∀ uf' : List RelPath, ∃ fs',
      setup_calypso cfg env root fs0 uf' = (.ok dirs, fs')) := by
  obtain ⟨pr, pstress, baseArea, fsloop, hfp, hfmt, hba, hloop, hfs⟩ :=
    setup_calypso_ok_destruct cfg env root fs0 uf dirs fs h
  have hroots : ∀ n ∈ filesToCopy, fsRead (rootWrites cfg fs0 pr pstress) [n] =
      some (rootContent cfg pr pstress n) :=
    fun n hn => rootWrites_read cfg fs0 pr pstress n hn
  obtain ⟨hdirs, hframe, hmfacts⟩ :=
    setupLoop_ok ⟨cfg, pr, pstress, calculate_distance_of_ion pr.rwigs, baseArea⟩
      cfg.formula_multipliers [] (rootWrites cfg fs0 pr pstress) dirs fsloop
      hloop hroots
  subst hfs
  refine ⟨by decide, ?_, ?_, ?_, by simpa using hdirs, ?_⟩
  · intro n hn hnuf
    rw [fsRead_unlinkStage, if_pos ⟨n, hn, rfl, hnuf⟩]
  · intro m hm n hn
    obtain ⟨d, _, _, hcopies⟩ := hmfacts m hm
    refine ⟨rootContent cfg pr pstress n, ?_⟩
    rw [fsRead_unlinkStage, if_neg ?_]
    · exact hcopies n hn
    · intro ⟨x, _, hqx, _⟩
      simpa using congrArg List.length hqx
  · intro m hm
    obtain ⟨d, _, hidat, _⟩ := hmfacts m hm
    refine ⟨contentOfLines (inputDatLines d), ?_⟩
    rw [fsRead_unlinkStage, if_neg ?_]
    · exact hidat
    · intro ⟨x, _, hqx, _⟩
      simpa using congrArg List.length hqx
  · intro uf'
    refine ⟨unlinkStage fsloop uf', ?_⟩
    rw [setup_calypso]
    simp only [hfp, hfmt, hba, hloop]

/-- C5 counterexample: the set of shared top-level files the orchestrator
copies and deletes has six members, not five as the claim states. -/
theorem C5_counterexample : filesToCopy.length = 6 ∧ ¬filesToCopy.length = 5 := by
  exact ⟨by decide, by decide⟩

/-- C5 witness: a concrete run with multipliers [1, 2] leaves no shared
root file, keeps all copies in both subdirectories, and succeeds for
every deletion-failure oracle. -/
theorem C5_shared_cleanup_witness :
    ∃ dirs fs, setup_calypso
      { elements := ["Fe"], atom_counts := [1], formula_multipliers := [1, 2],
        pressure_gpa := 5, calypso_executable := "c", vasp_executable := "v",
        is_2d := false, num_layers := 1, relax_z := false, layer_type_matrix := none }
      [("Fe", "RWIGS = 1.20; RWIGS = 1.10".data)] "root" ⟨[]⟩ [] = (.ok dirs, fs) ∧
      fsRead fs ["POTCAR"] = none ∧
      (∃ c, fsRead fs [String.mk (pyStr 2), "POTCAR"] = some c) := by
  cases hrun : setup_calypso
      { elements := ["Fe"], atom_counts := [1], formula_multipliers := [1, 2],
        pressure_gpa := 5, calypso_executable := "c", vasp_executable := "v",
        is_2d := false, num_layers := 1, relax_z := false, layer_type_matrix := none }
      [("Fe", "RWIGS = 1.20; RWIGS = 1.10".data)] "root" ⟨[]⟩ [] with
  | mk out fs =>
      cases out with
      | error e =>
          exfalso
          have : (setup_calypso
              { elements := ["Fe"], atom_counts := [1], formula_multipliers := [1, 2],
                pressure_gpa := 5, calypso_executable := "c", vasp_executable := "v",
                is_2d := false, num_layers := 1, relax_z := false,
                layer_type_matrix := none }
              [("Fe", "RWIGS = 1.20; RWIGS = 1.10".data)] "root" ⟨[]⟩ []).1.isOk =
              true := by decide
          rw [hrun] at this
          exact absurd this (by simp [Except.isOk, Except.toBool])
      | ok dirs =>
          have hc := C5_shared_cleanup _ _ _ _ _ _ _ hrun
          exact ⟨dirs, fs, rfl,
            hc.2.1 "POTCAR" (by decide) (List.not_mem_nil _),
            hc.2.2.1 2 (by decide) "POTCAR" (by decide)⟩

/-! ## Field characterization of the renderer -/

/-- The `@LayerType` block rows computed by `create_input_dat`
(src/builder.py:146-152), as a standalone function of the layer matrix. -/
def layerLinesOf (ltm : Option (List (List ℤ))) : List (List Char) :=
  match ltm with
  | some m => if m.isEmpty then [] else m.map (fun layer => joinSpace (layer.map pyStr))
  | none => []

/-- The `LAtom_Dis` line computed by `create_input_dat`
(src/builder.py:139-143), as a standalone function of the minimum distance. -/
def latomLineOf (minD : Option ℚ) : List Char :=
  match minD with
  | some v => "LAtom_Dis = ".data ++ floatStr v
  | none => []

theorem create_input_dat_fields (elements : List String) (atom_counts : List ℤ)
    (matrix : List (List ℚ)) (minD : Option ℚ) (is_2d : Bool) (nl : ℤ) (rz : Bool)
    (ba : Option ℚ) (ltm : Option (List (List ℤ))) (fv : ℤ) (d : InputDat)
    (h : create_input_dat elements atom_counts matrix minD is_2d nl rz ba ltm fv =
      .ok d) :
    d.systemName =
      ((elements.zip atom_counts).map (fun p => p.1.data ++ pyStr p.2)).flatten ∧
    d.numSpecies = elements.length ∧
    d.nameOfAtoms = joinSpace (elements.map String.data) ∧
    d.numberOfAtoms = joinSpace (atom_counts.map pyStr) ∧
    d.distanceLines = matrix.map (fun row => joinSpace (row.map q6f)) ∧
    (is_2d = false → d.twoD = none) ∧
    (is_2d = true → ∃ ba', ba = some ba' ∧ d.twoD = some
      { numLayers := nl
        area := qMul ba' (mkRat fv 1)
        deltaZ := if rz then mkRat 1 10 else 0
        layerLines := layerLinesOf ltm
        latomLine := latomLineOf minD }) := by
  rw [create_input_dat.eq_def] at h
  cases is_2d with
  | false =>
      simp only [Bool.false_eq_true, if_false, Except.ok.injEq] at h
      subst h
      exact ⟨rfl, rfl, rfl, rfl, rfl, fun _ => rfl, fun hc => absurd hc (by simp)⟩
  | true =>
      simp only [if_true] at h
      cases ba with
      | none => exact absurd h (by simp)
      | some ba' =>
          simp only [Except.ok.injEq] at h
          subst h
          exact ⟨rfl, rfl, rfl, rfl, rfl, fun hc => absurd hc (by simp),
            fun _ => ⟨ba', rfl, rfl⟩⟩

/-! ## Claim C8: run invariants across multipliers -/

/-- C8: within one successful run, every pair of generated input.dat files
embeds the same distance block (rendered from the one matrix computed from
the resolved radius map) and the same minimum-radius line, and agrees on
all fields that the multiplier does not scale (species count, element
names, layer count, z-delta); only the system name, atom counts, and in 2D
mode the area and layer composition carry the multiplier. -/
theorem C8_run_invariants (cfg : SetupConfig) (env : PotEnv) (root : String)
    (fs0 : FS) (uf : List RelPath) (dirs : List String) (fs : FS)
    (h : setup_calypso cfg env root fs0 uf = (.ok dirs, fs))
    (m1 m2 : ℤ) (h1 : m1 ∈ cfg.formula_multipliers)
    (h2 : m2 ∈ cfg.formula_multipliers) :
    ∃ pr d1 d2,
      find_potcar cfg.elements env root = .ok pr ∧
      fsRead fs [String.mk (pyStr m1), "input.dat"] =
        some (contentOfLines (inputDatLines d1)) ∧
      fsRead fs [String.mk (pyStr m2), "input.dat"] =
        some (contentOfLines (inputDatLines d2)) ∧
      d1.distanceLines =
        (calculate_distance_of_ion pr.rwigs).map (fun row => joinSpace (row.map q6f)) ∧
      d1.distanceLines = d2.distanceLines ∧
      d1.twoD.map TwoDParams.latomLine = d2.twoD.map TwoDParams.latomLine ∧
      d1.numSpecies = d2.numSpecies ∧
      d1.nameOfAtoms = d2.nameOfAtoms ∧
      d1.twoD.map TwoDParams.numLayers = d2.twoD.map TwoDParams.numLayers ∧
      d1.twoD.map TwoDParams.deltaZ = d2.twoD.map TwoDParams.deltaZ ∧
      d1.numberOfAtoms = joinSpace ((cfg.atom_counts.map (fun c => c * m1)).map pyStr) ∧
      d2.numberOfAtoms = joinSpace ((cfg.atom_counts.map (fun c => c * m2)).map pyStr) ∧
      d1.systemName = ((cfg.elements.zip (cfg.atom_counts.map (fun c => c * m1))).map
        (fun p => p.1.data ++ pyStr p.2)).flatten ∧
      d2.systemName = ((cfg.elements.zip (cfg.atom_counts.map (fun c => c * m2))).map
        (fun p => p.1.data ++ pyStr p.2)).flatten := by
  obtain ⟨pr, pstress, baseArea, fsloop, hfp, hfmt, hba, hloop, hfs⟩ :=
    setup_calypso_ok_destruct cfg env root fs0 uf dirs fs h
  have hroots : ∀ n ∈ filesToCopy, fsRead (rootWrites cfg fs0 pr pstress) [n] =
      some (rootContent cfg pr pstress n) :=
    fun n hn => rootWrites_read cfg fs0 pr pstress n hn
  obtain ⟨hdirs, hframe, hmfacts⟩ :=
    setupLoop_ok ⟨cfg, pr, pstress, calculate_distance_of_ion pr.rwigs, baseArea⟩
      cfg.formula_multipliers [] (rootWrites cfg fs0 pr pstress) dirs fsloop
      hloop hroots
  obtain ⟨d1, hrender1, hread1, _⟩ := hmfacts m1 h1
  obtain ⟨d2, hrender2, hread2, _⟩ := hmfacts m2 h2
  rw [renderFor] at hrender1 hrender2
  obtain ⟨hsys1, hns1, hna1, hnum1, hdist1, h2df1, h2dt1⟩ :=
    create_input_dat_fields _ _ _ _ _ _ _ _ _ _ _ hrender1
  obtain ⟨hsys2, hns2, hna2, hnum2, hdist2, h2df2, h2dt2⟩ :=
    create_input_dat_fields _ _ _ _ _ _ _ _ _ _ _ hrender2
  have hreadfs : ∀ m d', fsRead fsloop [String.mk (pyStr m), "input.dat"] =
      some (contentOfLines (inputDatLines d')) →
      fsRead fs [String.mk (pyStr m), "input.dat"] =
        some (contentOfLines (inputDatLines d')) := by
    intro m d' hr
    have hne : ¬ ∃ n ∈ filesToCopy,
        ([String.mk (pyStr m), "input.dat"] : RelPath) = [n] ∧
        ([n] : RelPath) ∉ uf := by
      rintro ⟨n, _, hqx, _⟩
      simpa using congrArg List.length hqx
    rw [hfs, fsRead_unlinkStage, if_neg hne]
    exact hr
  have h2d : d1.twoD.map TwoDParams.latomLine = d2.twoD.map TwoDParams.latomLine ∧
      d1.twoD.map TwoDParams.numLayers = d2.twoD.map TwoDParams.numLayers ∧
      d1.twoD.map TwoDParams.deltaZ = d2.twoD.map TwoDParams.deltaZ := by
    cases h2dcase : cfg.is_2d with
    | false =>
        rw [h2df1 h2dcase, h2df2 h2dcase]
        exact ⟨rfl, rfl, rfl⟩
    | true =>
        obtain ⟨ba1, _, ht1⟩ := h2dt1 h2dcase
        obtain ⟨ba2, _, ht2⟩ := h2dt2 h2dcase
        rw [ht1, ht2]
        exact ⟨rfl, rfl, rfl⟩
  exact ⟨pr, d1, d2, hfp, hreadfs m1 d1 hread1, hreadfs m2 d2 hread2,
    hdist1, by rw [hdist1, hdist2], h2d.1, by rw [hns1, hns2],
    by rw [hna1, hna2], h2d.2.1, h2d.2.2, hnum1, hnum2, hsys1, hsys2⟩

/-- C8 witness: a concrete run with multipliers [1, 2] yields input.dat
files in both subdirectories whose distance blocks coincide and whose atom
counts carry the respective multiplier. -/
theorem C8_run_invariants_witness :
    ∃ dirs fs pr d1 d2, setup_calypso
      { elements := ["Fe"], atom_counts := [1], formula_multipliers := [1, 2],
        pressure_gpa := 5, calypso_executable := "c", vasp_executable := "v",
        is_2d := false, num_layers := 1, relax_z := false, layer_type_matrix := none }
      [("Fe", "RWIGS = 1.20; RWIGS = 1.10".data)] "r8" ⟨[]⟩ [] = (.ok dirs, fs) ∧
      find_potcar ["Fe"] [("Fe", "RWIGS = 1.20; RWIGS = 1.10".data)] "r8" = .ok pr ∧
      fsRead fs [String.mk (pyStr 1), "input.dat"] =
        some (contentOfLines (inputDatLines d1)) ∧
      fsRead fs [String.mk (pyStr 2), "input.dat"] =
        some (contentOfLines (inputDatLines d2)) ∧
      d1.distanceLines =
        (calculate_distance_of_ion pr.rwigs).map (fun row => joinSpace (row.map q6f)) ∧
      d1.distanceLines = d2.distanceLines ∧
      d1.numberOfAtoms = joinSpace ((([1] : List ℤ).map (fun c => c * 1)).map pyStr) ∧
      d2.numberOfAtoms = joinSpace ((([1] : List ℤ).map (fun c => c * 2)).map pyStr) := by
  cases hrun : setup_calypso
      { elements := ["Fe"], atom_counts := [1], formula_multipliers := [1, 2],
        pressure_gpa := 5, calypso_executable := "c", vasp_executable := "v",
        is_2d := false, num_layers := 1, relax_z := false, layer_type_matrix := none }
      [("Fe", "RWIGS = 1.20; RWIGS = 1.10".data)] "r8" ⟨[]⟩ [] with
  | mk out fs =>
      cases out with
      | error e =>
          exfalso
          have : (setup_calypso
              { elements := ["Fe"], atom_counts := [1], formula_multipliers := [1, 2],
                pressure_gpa := 5, calypso_executable := "c", vasp_executable := "v",
                is_2d := false, num_layers := 1, relax_z := false,
                layer_type_matrix := none }
              [("Fe", "RWIGS = 1.20; RWIGS = 1.10".data)] "r8" ⟨[]⟩ []).1.isOk =
              true := by decide
          rw [hrun] at this
          exact absurd this (by simp [Except.isOk, Except.toBool])
      | ok dirs =>
          obtain ⟨pr, d1, d2, hfp, hr1, hr2, hd, hdd, _, _, _, _, _, hn1, hn2, _, _⟩ :=
            C8_run_invariants _ _ _ _ _ _ _ hrun 1 2 (by decide) (by decide)
          exact ⟨dirs, fs, pr, d1, d2, rfl, hfp, hr1, hr2, hd, hdd, hn1, hn2⟩

/-! ## Claim C6: 2D base area and the missing-area failure -/

/-- C6: in a successful 2D run, every multiplier's input.dat embeds an
Area equal to the base area times the multiplier, where the base area is
computed once from the unscaled atom counts as the count of the
largest-radius element times pi times that radius squared; and a renderer
call in 2D mode with no area supplied fails with the ValidationError
message and leaves the file system unchanged, writing no input.dat. -/
theorem C6_two_d_area (cfg : SetupConfig) (env : PotEnv) (root : String)
    (fs0 : FS) (uf : List RelPath) (dirs : List String) (fs : FS)
    (h : setup_calypso cfg env root fs0 uf = (.ok dirs, fs))
    (h2d : cfg.is_2d = true) (m : ℤ) (hm : m ∈ cfg.formula_multipliers) :
    (∃ pr e r idx count d t,
      find_potcar cfg.elements env root = .ok pr ∧
      argmaxFirst pr.rwigs = some (e, r) ∧
      cfg.elements.findIdx? (fun x => x = e) = some idx ∧
      cfg.atom_counts[idx]? = some count ∧
      fsRead fs [String.mk (pyStr m), "input.dat"] =
        some (contentOfLines (inputDatLines d)) ∧
      d.twoD = some t ∧
      t.area = qMul (qMul (qMul (mkRat count 1) piFloat) (qMul r r)) (mkRat m 1)) ∧
    (∀ (fsr : FS) (dir : RelPath) (elements : List String) (atom_counts : List ℤ)
      (matrix : List (List ℚ)) (minD : Option ℚ) (nl : ℤ) (rz : Bool)
      (ltm : Option (List (List ℤ))) (fv : ℤ),
      create_input_dat_fs fsr dir elements atom_counts matrix minD true nl rz
        none ltm fv =
        (.error "base_area must be provided for 2D calculations".data, fsr)) := by
  obtain ⟨pr, pstress, baseArea, fsloop, hfp, hfmt, hba, hloop, hfs⟩ :=
    setup_calypso_ok_destruct cfg env root fs0 uf dirs fs h
  refine ⟨?_, fun fsr dir elements atom_counts matrix minD nl rz ltm fv => rfl⟩
  rw [computeBaseArea.eq_def] at hba
  simp only [h2d, eq_self_iff_true, if_true] at hba
  cases hArg : argmaxFirst pr.rwigs with
  | none =>
      simp only [hArg] at hba
      exact absurd hba (by simp)
  | some p =>
      obtain ⟨e, r⟩ := p
      simp only [hArg] at hba
      cases hIdx : cfg.elements.findIdx? (fun x => x = e) with
      | none =>
          simp only [hIdx] at hba
          exact absurd hba (by simp)
      | some idx =>
          simp only [hIdx] at hba
          cases hCnt : cfg.atom_counts[idx]? with
          | none =>
              simp only [hCnt] at hba
              exact absurd hba (by simp)
          | some count =>
              simp only [hCnt, Except.ok.injEq] at hba
              subst hba
              have hroots : ∀ n ∈ filesToCopy,
                  fsRead (rootWrites cfg fs0 pr pstress) [n] =
                  some (rootContent cfg pr pstress n) :=
                fun n hn => rootWrites_read cfg fs0 pr pstress n hn
              obtain ⟨hdirs, hframe, hmfacts⟩ :=
                setupLoop_ok ⟨cfg, pr, pstress, calculate_distance_of_ion pr.rwigs,
                    some (qMul (qMul (mkRat count 1) piFloat) (qMul r r))⟩
                  cfg.formula_multipliers [] (rootWrites cfg fs0 pr pstress)
                  dirs fsloop hloop hroots
              obtain ⟨d, hrender, hread, _⟩ := hmfacts m hm
              rw [renderFor] at hrender
              obtain ⟨_, _, _, _, _, _, h2dt⟩ :=
                create_input_dat_fields _ _ _ _ _ _ _ _ _ _ _ hrender
              obtain ⟨ba', hba', ht⟩ := h2dt h2d
              have hA : qMul (qMul (mkRat count 1) piFloat) (qMul r r) = ba' := by
                exact Option.some.inj hba'
              subst hA
              have hne : ¬ ∃ n ∈ filesToCopy,
                  ([String.mk (pyStr m), "input.dat"] : RelPath) = [n] ∧
                  ([n] : RelPath) ∉ uf := by
                rintro ⟨n, _, hqx, _⟩
                simpa using congrArg List.length hqx
              refine ⟨pr, e, r, idx, count, d, _, hfp, hArg, hIdx, hCnt, ?_, ht, rfl⟩
              rw [hfs, fsRead_unlinkStage, if_neg hne]
              exact hread

/-- C6 witness: a concrete 2D run with multiplier 2 embeds an Area equal
to count * pi * r^2 * 2 for the resolved radius r, and the no-area
renderer call fails without touching a concrete file system. -/
theorem C6_two_d_area_witness :
    ∃ (dirs : List String) (fs : FS) (pr : PotcarResult) (e : String) (r : ℚ)
      (idx : ℕ) (count : ℤ) (d : InputDat) (t : TwoDParams), setup_calypso
      { elements := ["Fe"], atom_counts := [1], formula_multipliers := [2],
        pressure_gpa := 5, calypso_executable := "c", vasp_executable := "v",
        is_2d := true, num_layers := 1, relax_z := false, layer_type_matrix := none }
      [("Fe", "RWIGS = 1.20; RWIGS = 1.10".data)] "r6" ⟨[]⟩ [] = (.ok dirs, fs) ∧
      argmaxFirst pr.rwigs = some (e, r) ∧
      (["Fe"] : List String).findIdx? (fun x => x = e) = some idx ∧
      (([1] : List ℤ))[idx]? = some count ∧
      fsRead fs [String.mk (pyStr 2), "input.dat"] =
        some (contentOfLines (inputDatLines d)) ∧
      d.twoD = some t ∧
      t.area = qMul (qMul (qMul (mkRat count 1) piFloat) (qMul r r)) (mkRat 2 1) ∧
      create_input_dat_fs ⟨[]⟩ ["x"] ["Fe"] [1] [] none true 1 false none none 1 =
        (.error "base_area must be provided for 2D calculations".data, ⟨[]⟩) := by
  cases hrun : setup_calypso
      { elements := ["Fe"], atom_counts := [1], formula_multipliers := [2],
        pressure_gpa := 5, calypso_executable := "c", vasp_executable := "v",
        is_2d := true, num_layers := 1, relax_z := false, layer_type_matrix := none }
      [("Fe", "RWIGS = 1.20; RWIGS = 1.10".data)] "r6" ⟨[]⟩ [] with
  | mk out fs =>
      cases out with
      | error err =>
          exfalso
          have : (setup_calypso
              { elements := ["Fe"], atom_counts := [1], formula_multipliers := [2],
                pressure_gpa := 5, calypso_executable := "c", vasp_executable := "v",
                is_2d := true, num_layers := 1, relax_z := false,
                layer_type_matrix := none }
              [("Fe", "RWIGS = 1.20; RWIGS = 1.10".data)] "r6" ⟨[]⟩ []).1.isOk =
              true := by decide
          rw [hrun] at this
          exact absurd this (by simp [Except.isOk, Except.toBool])
      | ok dirs =>
          obtain ⟨⟨pr, e, r, idx, count, d, t, h1, h2, h3, h4, h5, h6, h7⟩, herr⟩ :=
            C6_two_d_area _ _ _ _ _ _ _ hrun rfl 2 (by decide)
          exact ⟨dirs, fs, pr, e, r, idx, count, d, t, rfl, h2, h3, h4, h5, h6, h7,
            herr ⟨[]⟩ ["x"] ["Fe"] [1] [] none 1 false none 1⟩

/-! ## Claim C9: the in-place scaler is a frame -/

theorem splitKEAux_flatten (cur cs : List Char) :
    (splitKEAux cur cs).flatten = cur.reverse ++ cs := by
  induction cur, cs using splitKEAux.induct <;> simp_all [splitKEAux]

theorem mapM_some_facts (f : List Char → Option (List Char)) :
    ∀ (l r : List (List Char)), l.mapM f = some r →
      r.length = l.length ∧
      ∀ (i : ℕ) (x : List Char), l[i]? = some x →
        ∃ y, f x = some y ∧ r[i]? = some y := by
  intro l
  induction l with
  | nil =>
      intro r h
      simp only [List.mapM_nil, Option.pure_def, Option.some.injEq] at h
      subst h
      exact ⟨rfl, fun i x hx => by simp at hx⟩
  | cons a l ih =>
      intro r h
      rw [List.mapM_cons] at h
      cases hfa : f a with
      | none =>
          rw [hfa] at h
          simp at h
      | some y =>
          rw [hfa] at h
          cases hml : l.mapM f with
          | none =>
              rw [hml] at h
              simp at h
          | some ys =>
              rw [hml] at h
              simp only [Option.pure_def, Option.bind_eq_bind, Option.some_bind,
                Option.some.injEq] at h
              subst h
              obtain ⟨hlen, hidx⟩ := ih ys hml
              refine ⟨by simp [hlen], ?_⟩
              intro i x hx
              cases i with
              | zero =>
                  simp only [List.getElem?_cons_zero, Option.some.injEq] at hx
                  subst hx
                  exact ⟨y, hfa, by simp⟩
              | succ j =>
                  simp only [List.getElem?_cons_succ] at hx ⊢
                  exact hidx j x hx

/-- C9: on every file content the scaler accepts, the output is the
line-by-line image of the input where a line starting with the
system-name field gets the multiplier appended to its stripped value, a
line starting with the atom-counts field has every count multiplied by
the multiplier, and every other line — surrounding content included — is
reproduced byte-for-byte; the line split itself loses no bytes. -/
theorem C9_scaler_frame (content : List Char) (m : ℤ) (out : List Char)
    (h : adjust_input_dat content m = some out) :
    (splitlinesKE content).flatten = content ∧
    ∃ outLines : List (List Char), out = outLines.flatten ∧
      outLines.length = (splitlinesKE content).length ∧
      ∀ (i : ℕ) (line : List Char), (splitlinesKE content)[i]? = some line →
        (strStartsWith line "SystemName = ".data = false →
          strStartsWith line "NumberOfAtoms = ".data = false →
          outLines[i]? = some line) ∧
        (strStartsWith line "SystemName = ".data = true →
          outLines[i]? = some ("SystemName = ".data ++
            pyStrip (afterFirst '=' line) ++ pyStr m ++ ['\n'])) ∧
        (strStartsWith line "SystemName = ".data = false →
          strStartsWith line "NumberOfAtoms = ".data = true →
          ∃ ns, (pySplit (pyStrip (afterFirst '=' line))).mapM pyParseInt = some ns ∧
            outLines[i]? = some ("NumberOfAtoms = ".data ++
              joinSpace (ns.map (fun n => pyStr (n * m))) ++ ['\n'])) := by
  refine ⟨by simpa using splitKEAux_flatten [] content, ?_⟩
  rw [adjust_input_dat] at h
  cases hml : (splitlinesKE content).mapM (adjustLine m) with
  | none =>
      rw [hml] at h
      simp at h
  | some ls =>
      rw [hml] at h
      simp only [Option.some.injEq] at h
      subst h
      obtain ⟨hlen, hidx⟩ := mapM_some_facts (adjustLine m) (splitlinesKE content) ls hml
      refine ⟨ls, rfl, hlen, ?_⟩
      intro i line hline
      obtain ⟨y, hy, hr⟩ := hidx i line hline
      refine ⟨?_, ?_, ?_⟩
      · intro h1 h2
        simp only [adjustLine, h1, h2, Bool.false_eq_true, if_false] at hy
        rw [← hy] at hr
        exact hr
      · intro h1
        simp only [adjustLine, h1, if_true] at hy
        rw [← hy] at hr
        exact hr
      · intro h1 h2
        simp only [adjustLine, h1, h2, Bool.false_eq_true, if_false, if_true] at hy
        cases hparse : (pySplit (pyStrip (afterFirst '=' line))).mapM pyParseInt with
        | none =>
            rw [hparse] at hy
            simp at hy
        | some ns =>
            rw [hparse] at hy
            simp only [Option.some.injEq] at hy
            rw [← hy] at hr
            exact ⟨ns, rfl, hr⟩

/-- C9 witness: on a concrete three-line file the scaler rewrites the two
recognized fields, keeps the third line byte-for-byte, and the keepends
line split reassembles to the original content. -/
theorem C9_scaler_frame_witness :
    adjust_input_dat "SystemName = Fe1O1\nNumberOfAtoms = 1 1\nICode = 1\n".data 3 =
      some "SystemName = Fe1O13\nNumberOfAtoms = 3 3\nICode = 1\n".data ∧
    (splitlinesKE "SystemName = Fe1O1\nNumberOfAtoms = 1 1\nICode = 1\n".data).flatten =
      "SystemName = Fe1O1\nNumberOfAtoms = 1 1\nICode = 1\n".data :=
  ⟨by decide,
    (C9_scaler_frame "SystemName = Fe1O1\nNumberOfAtoms = 1 1\nICode = 1\n".data 3
      "SystemName = Fe1O13\nNumberOfAtoms = 3 3\nICode = 1\n".data (by decide)).1⟩

/-! ## Claim C2: direct render versus the in-place scaler -/

theorem strStartsWith_append (p x : List Char) : strStartsWith (p ++ x) p = true := by
  induction p with
  | nil => cases x <;> rfl
  | cons c p ih => simp [strStartsWith, ih]

theorem pyStrip_wrap (J : List Char) : pyStrip (' ' :: (J ++ ['\n'])) = pyStrip J := by
  rw [pyStrip, pyStrip, List.dropWhile_cons_of_pos (by decide), List.dropWhile_append]
  by_cases hJ : (J.dropWhile pyIsSpace).isEmpty
  · rw [if_pos hJ]
    have hJ' : J.dropWhile pyIsSpace = [] := by simpa using hJ
    rw [hJ']
    decide
  · rw [if_neg hJ]
    rw [List.reverse_append]
    have h1 : (['\n'] : List Char).reverse = ['\n'] := rfl
    rw [h1, List.singleton_append, List.dropWhile_cons_of_pos (by decide)]

theorem pyStrip_eq_self (J : List Char)
    (hh : ∀ b, J.head? = some b → pyIsSpace b = false)
    (hl : ∀ b, J.getLast? = some b → pyIsSpace b = false) :
    pyStrip J = J := by
  have h1 : J.dropWhile pyIsSpace = J := by
    cases J with
    | nil => rfl
    | cons c l =>
        rw [List.dropWhile_cons_of_neg]
        simp [hh c rfl]
  rw [pyStrip, h1]
  have h2 : J.reverse.dropWhile pyIsSpace = J.reverse := by
    cases hr : J.reverse with
    | nil => rfl
    | cons c l =>
        rw [List.dropWhile_cons_of_neg]
        have hc : J.getLast? = some c := by rw [← List.head?_reverse, hr]; rfl
        simp [hl c hc]
  rw [h2, List.reverse_reverse]

theorem joinSpace_singleton (t : List Char) : joinSpace [t] = t := by
  simp [joinSpace, List.intercalate]

theorem joinSpace_cons_cons (t r : List Char) (rs : List (List Char)) :
    joinSpace (t :: r :: rs) = t ++ ' ' :: joinSpace (r :: rs) := by
  simp [joinSpace, List.intercalate, List.intersperse_cons_cons]

theorem joinSpace_cons_ne_nil (r : List Char) (rs : List (List Char)) (hr : r ≠ []) :
    joinSpace (r :: rs) ≠ [] := by
  cases rs with
  | nil => rw [joinSpace_singleton]; exact hr
  | cons x xs =>
      rw [joinSpace_cons_cons]
      intro hcontra
      exact hr (List.append_eq_nil.mp hcontra).1

theorem joinSpace_head_clean (ts : List (List Char)) (hne : ∀ t ∈ ts, t ≠ [])
    (hclean : ∀ t ∈ ts, ∀ c ∈ t, pyIsSpace c = false) :
    ∀ b, (joinSpace ts).head? = some b → pyIsSpace b = false := by
  intro b hb
  cases ts with
  | nil => exact absurd hb (by simp [joinSpace, List.intercalate])
  | cons t rest =>
      have hmem : b ∈ t := by
        obtain ⟨c, l, rfl⟩ := List.exists_cons_of_ne_nil (hne t (by simp))
        cases rest with
        | nil =>
            rw [joinSpace_singleton] at hb
            simp only [List.head?_cons, Option.some.injEq] at hb
            subst hb
            exact List.mem_cons_self _ _
        | cons r rs =>
            rw [joinSpace_cons_cons, List.cons_append] at hb
            simp only [List.head?_cons, Option.some.injEq] at hb
            subst hb
            exact List.mem_cons_self _ _
      exact hclean t (by simp) b hmem

theorem joinSpace_getLast_clean (ts : List (List Char)) (hne : ∀ t ∈ ts, t ≠ [])
    (hclean : ∀ t ∈ ts, ∀ c ∈ t, pyIsSpace c = false) :
    ∀ b, (joinSpace ts).getLast? = some b → pyIsSpace b = false := by
  induction ts with
  | nil =>
      intro b hb
      exact absurd hb (by simp [joinSpace, List.intercalate])
  | cons t rest ih =>
      intro b hb
      cases rest with
      | nil =>
          rw [joinSpace_singleton] at hb
          exact hclean t (by simp) b (List.mem_of_getLast?_eq_some hb)
      | cons r rs =>
          rw [joinSpace_cons_cons, List.getLast?_append_cons] at hb
          have hne' : joinSpace (r :: rs) ≠ [] :=
            joinSpace_cons_ne_nil r rs (hne r (by simp))
          obtain ⟨c, l, hcl⟩ := List.exists_cons_of_ne_nil hne'
          rw [hcl, List.getLast?_cons_cons, ← hcl] at hb
          exact ih (fun x hx => hne x (List.mem_cons_of_mem t hx))
            (fun x hx => hclean x (List.mem_cons_of_mem t hx)) b hb

theorem pySplit_joinSpace (ts : List (List Char)) (hne : ∀ t ∈ ts, t ≠ [])
    (hclean : ∀ t ∈ ts, ∀ c ∈ t, pyIsSpace c = false) :
    pySplit (joinSpace ts) = ts := by
  induction ts with
  | nil => rfl
  | cons t rest ih =>
      have ht : t ≠ [] := hne t (by simp)
      obtain ⟨c, l, hcl⟩ := List.exists_cons_of_ne_nil ht
      have hfilt : (!t.isEmpty) = true := by rw [hcl]; rfl
      have htclean : ∀ x ∈ t, ¬pyIsSpace x := by
        intro x hx
        simp [hclean t (by simp) x hx]
      cases rest with
      | nil =>
          rw [joinSpace_singleton, pySplit, List.splitOnP_eq_single pyIsSpace t htclean,
            List.filter_cons, if_pos hfilt]
          rfl
      | cons r rs =>
          rw [joinSpace_cons_cons, pySplit,
            List.splitOnP_first pyIsSpace t htclean ' ' (by decide),
            List.filter_cons, if_pos hfilt]
          have hrest := ih (fun x hx => hne x (List.mem_cons_of_mem t hx))
            (fun x hx => hclean x (List.mem_cons_of_mem t hx))
          rw [pySplit] at hrest
          rw [hrest]

theorem pyStrNat_no_space (n : ℕ) : ∀ c ∈ pyStrNat n, pyIsSpace c = false := by
  by_cases hn : n = 0
  · subst hn
    intro c hc
    rw [show pyStrNat 0 = ['0'] from rfl, List.mem_singleton] at hc
    subst hc
    decide
  · rw [pyStrNat_eq n hn]
    intro c hc
    simp only [List.mem_map, List.mem_reverse] at hc
    obtain ⟨d, hd, rfl⟩ := hc
    have hd10 : d < 10 := Nat.digits_lt_base (by norm_num) hd
    interval_cases d <;> decide

theorem pyStr_no_space (i : ℤ) : ∀ c ∈ pyStr i, pyIsSpace c = false := by
  rw [pyStr]
  split_ifs with h
  · intro c hc
    rcases List.mem_cons.mp hc with hc | hc
    · subst hc; decide
    · exact pyStrNat_no_space _ c hc
  · exact pyStrNat_no_space _

theorem pyStr_ne_nil (i : ℤ) : pyStr i ≠ [] := by
  rw [pyStr]
  split_ifs with h
  · simp
  · exact pyStrNat_ne_nil _

theorem mapM_pyParseInt_map_pyStr (l : List ℤ) :
    (l.map pyStr).mapM pyParseInt = some l := by
  induction l with
  | nil => rfl
  | cons a l ih =>
      rw [List.map_cons, List.mapM_cons, pyParseInt_pyStr, ih]
      rfl

/-- C2 (amended): with whitespace-clean data, the in-place scaler and the
direct render agree on the atom-counts field — the scaler parses the base
counts back and multiplies each by m, yielding exactly the direct render's
value — but they DIVERGE on the system name: the scaler appends m to the
base name while the direct render interleaves the scaled counts between
the element symbols. -/
theorem C2_scaling_paths (elements : List String) (counts : List ℤ) (m : ℤ)
    (matrix : List (List ℚ)) (minD : Option ℚ) (nl : ℤ) (rz : Bool)
    (ba : Option ℚ) (ltm : Option (List (List ℤ))) (fv fv2 : ℤ)
    (dbase ddirect : InputDat)
    (hbase : create_input_dat elements counts matrix minD false nl rz ba ltm fv =
      .ok dbase)
    (hdirect : create_input_dat elements (counts.map (fun c => c * m)) matrix minD
      false nl rz ba ltm fv2 = .ok ddirect)
    (hsys : ∀ c ∈ dbase.systemName, pyIsSpace c = false) :
    adjustLine m ("NumberOfAtoms = ".data ++ (dbase.numberOfAtoms ++ ['\n'])) =
      some ("NumberOfAtoms = ".data ++ (ddirect.numberOfAtoms ++ ['\n'])) ∧
    adjustLine m ("SystemName = ".data ++ (dbase.systemName ++ ['\n'])) =
      some ("SystemName = ".data ++ (dbase.systemName ++ (pyStr m ++ ['\n']))) ∧
    ddirect.numberOfAtoms = joinSpace ((counts.map (fun c => c * m)).map pyStr) ∧
    ddirect.systemName = ((elements.zip (counts.map (fun c => c * m))).map
      (fun p => p.1.data ++ pyStr p.2)).flatten := by
  obtain ⟨_, _, _, hnums, _, _, _⟩ :=
    create_input_dat_fields _ _ _ _ _ _ _ _ _ _ _ hbase
  obtain ⟨hsys2, _, _, hnums2, _, _, _⟩ :=
    create_input_dat_fields _ _ _ _ _ _ _ _ _ _ _ hdirect
  have hne : ∀ t ∈ counts.map pyStr, t ≠ [] := by
    intro t ht
    obtain ⟨i, _, rfl⟩ := List.mem_map.mp ht
    exact pyStr_ne_nil i
  have hclean : ∀ t ∈ counts.map pyStr, ∀ c ∈ t, pyIsSpace c = false := by
    intro t ht
    obtain ⟨i, _, rfl⟩ := List.mem_map.mp ht
    exact pyStr_no_space i
  refine ⟨?_, ?_, hnums2, hsys2⟩
  · have h1 : strStartsWith ("NumberOfAtoms = ".data ++
        (dbase.numberOfAtoms ++ ['\n'])) "SystemName = ".data = false := rfl
    have h2 : strStartsWith ("NumberOfAtoms = ".data ++
        (dbase.numberOfAtoms ++ ['\n'])) "NumberOfAtoms = ".data = true :=
      strStartsWith_append _ _
    have h3 : afterFirst '=' ("NumberOfAtoms = ".data ++
        (dbase.numberOfAtoms ++ ['\n'])) = ' ' :: (dbase.numberOfAtoms ++ ['\n']) := rfl
    simp only [adjustLine, h1, h2, Bool.false_eq_true, if_false, if_true, h3]
    rw [pyStrip_wrap, hnums,
      pyStrip_eq_self _ (joinSpace_head_clean _ hne hclean)
        (joinSpace_getLast_clean _ hne hclean),
      pySplit_joinSpace _ hne hclean, mapM_pyParseInt_map_pyStr]
    simp only [hnums2, List.map_map, List.append_assoc, Option.some.injEq,
      List.cons_append, List.nil_append, List.append_cancel_left_eq]
    rfl
  · have h1 : strStartsWith ("SystemName = ".data ++
        (dbase.systemName ++ ['\n'])) "SystemName = ".data = true :=
      strStartsWith_append _ _
    have h3 : afterFirst '=' ("SystemName = ".data ++
        (dbase.systemName ++ ['\n'])) = ' ' :: (dbase.systemName ++ ['\n']) := rfl
    have hh : ∀ b, dbase.systemName.head? = some b → pyIsSpace b = false := by
      intro b hb
      refine hsys b ?_
      cases hs : dbase.systemName with
      | nil => rw [hs] at hb; exact absurd hb (by simp)
      | cons c l =>
          rw [hs] at hb
          simp only [List.head?_cons, Option.some.injEq] at hb
          subst hb
          exact List.mem_cons_self _ _
    have hl : ∀ b, dbase.systemName.getLast? = some b → pyIsSpace b = false :=
      fun b hb => hsys b (List.mem_of_getLast?_eq_some hb)
    simp only [adjustLine, h1, if_true, h3]
    rw [pyStrip_wrap, pyStrip_eq_self _ hh hl]
    simp [List.append_assoc]

/-- C2 counterexample: elements [Fe, O] with base counts [1, 1] and m = 3;
the direct render's system name is Fe3O3 while the scaler path rewrites
the rendered base line to SystemName = Fe1O13 — the two paths do not both
append the multiplier to the base name. -/
theorem C2_counterexample :
    (create_input_dat ["Fe", "O"] [3, 3] [] none false 1 false none none 3).map
      InputDat.systemName = .ok "Fe3O3".data ∧
    (create_input_dat ["Fe", "O"] [1, 1] [] none false 1 false none none 1).map
      InputDat.systemName = .ok "Fe1O1".data ∧
    adjustLine 3 ("SystemName = ".data ++ ("Fe1O1".data ++ ['\n'])) =
      some ("SystemName = ".data ++ ("Fe1O13\n".data)) ∧
    ("Fe3O3" : String).data ≠ "Fe1O13".data := by
  exact ⟨by decide, by decide, by decide, by decide⟩

/-- C2 witness: at elements [Fe, O], counts [1, 1], m = 3, the scaler
turns the rendered counts line into the direct render's 3 3 and appends 3
to the base name Fe1O1. -/
theorem C2_scaling_paths_witness :
    adjustLine 3 ("NumberOfAtoms = ".data ++ ("1 1".data ++ ['\n'])) =
      some ("NumberOfAtoms = ".data ++ ("3 3".data ++ ['\n'])) ∧
    adjustLine 3 ("SystemName = ".data ++ ("Fe1O1".data ++ ['\n'])) =
      some ("SystemName = ".data ++ ("Fe1O1".data ++ (pyStr 3 ++ ['\n']))) := by
  have h := C2_scaling_paths ["Fe", "O"] [1, 1] 3 [] none 1 false none none 1 3
    { systemName := "Fe1O1".data, numSpecies := 2, nameOfAtoms := "Fe O".data,
      numberOfAtoms := "1 1".data, distanceLines := [], twoD := none }
    { systemName := "Fe3O3".data, numSpecies := 2, nameOfAtoms := "Fe O".data,
      numberOfAtoms := "3 3".data, distanceLines := [], twoD := none }
    (by decide) (by decide) (by decide)
  exact ⟨h.1, h.2.1⟩

end Calypsetup
